import Mathlib

/-!
Verification development for the per-object snapshot deep-copy planner
(`librbd::deep_copy::ObjectCopyRequest`, file
`src/librbd/deep_copy/ObjectCopyRequest.cc`).

The planner is embedded shallowly:

* `interval_set<uint64_t>` is modelled as a sorted, disjoint, coalesced list
  of `(offset, length)` extents (`IntervalSet`), with `unionInsert`
  (coalescing union of a single extent, as `interval_set::union_insert` /
  `insert`) and `isetDiff` (the `intersection_of` + `subtract` idiom used at
  ObjectCopyRequest.cc:534-536 and :627-629).
* `std::map` members (`m_read_ops`, `m_write_ops`, `m_dst_zero_interval`,
  `m_dst_object_state`) are modelled as key-sorted association lists built
  with `alUpd`, which inserts in ascending key order so that folds over the
  list reproduce the ascending iteration order of `std::map`.
* The asynchronous executors are modelled as folds driven by oracles for the
  environment's completion results (`ReadOracle` for source reads, a
  `Nat → Int` result function for destination write batches).
* `ceph_assert` conditions become hypotheses of the theorems; the embedded
  functions themselves are total, using `Option.getD` defaults at the
  lookups the source asserts to succeed.
-/

set_option linter.unusedVariables false
set_option linter.unreachableTactic false
set_option linter.unnecessarySeqFocus false
set_option linter.unusedTactic false

namespace ObjectCopy

/-! ## Key orders -/

/-- Strict order on `Nat` keys as a Bool, for sorted association lists
(`std::map<snap_t, ...>` iterates keys in ascending order). -/
def natLt (a b : Nat) : Bool := a < b

/-- `WriteReadSnapIds` is `std::pair<snap_t, snap_t>`; `std::map` orders it
lexicographically. -/
def keyLt (a b : Nat × Nat) : Bool := a.1 < b.1 || (a.1 = b.1 && a.2 < b.2)

/-! ## Sorted association lists (model of `std::map`) -/

/-- Value of key `k` in an association list (first occurrence). -/
def alGet {κ : Type} {α : Type} [DecidableEq κ] (k : κ) : List (κ × α) → Option α
  | [] => none
  | e :: rest => if e.1 = k then some e.2 else alGet k rest

/-- Update the value at key `k` with `f`, inserting `f d` in ascending `lt`
order when the key is absent.  Models `m[k] = f(m[k])` / `m[k].push_back`
on a `std::map` whose `operator[]` default-constructs `d`. -/
def alUpd {κ : Type} {α : Type} [DecidableEq κ] (lt : κ → κ → Bool) (k : κ)
    (f : α → α) (d : α) : List (κ × α) → List (κ × α)
  | [] => [(k, f d)]
  | e :: rest =>
    if k = e.1 then (e.1, f e.2) :: rest
    else if lt k e.1 then (k, f d) :: e :: rest
    else e :: alUpd lt k f d rest

/-- Keys of an association list, in list order. -/
def alKeys {κ : Type} {α : Type} (l : List (κ × α)) : List κ := l.map (fun e => e.1)

/-- Sortedness of an association list under `lt` (pairwise strictly
increasing keys), the invariant of every `std::map` model built here. -/
def AlSorted {κ : Type} {α : Type} (lt : κ → κ → Bool) (l : List (κ × α)) : Prop :=
  List.Pairwise (fun a b => lt a.1 b.1 = true) l

/-! ## Interval sets (model of `interval_set<uint64_t>`) -/

/-- One extent: (byte offset, byte length). -/
abbrev Extent := Nat × Nat

/-- An `interval_set<uint64_t>`: sorted, disjoint, coalesced extents. -/
abbrev IntervalSet := List Extent

/-- The set of byte offsets covered by an interval set. -/
def toSet (s : IntervalSet) : Set Nat := { x | ∃ e ∈ s, e.1 ≤ x ∧ x < e.1 + e.2 }

/-- Byte set of an optional interval set (`none` = key absent = empty). -/
def toSetO (s : Option IntervalSet) : Set Nat := toSet (s.getD [])

/-- `interval_set::union_insert(off, len)`: insert an extent, coalescing with
any overlapping or abutting extents (also models `insert` on the disjoint
inserts the source performs). -/
def unionInsert (s : IntervalSet) (off len : Nat) : IntervalSet :=
  if len = 0 then s else
  match s with
  | [] => [(off, len)]
  | e :: rest =>
    if off + len < e.1 then (off, len) :: e :: rest
    else if e.1 + e.2 < off then e :: unionInsert rest off len
    else unionInsert rest (min off e.1) (max (off + len) (e.1 + e.2) - min off e.1)

/-- Pieces of extent `p` remaining after removing extent `q` (at most two). -/
def pieceDiff (p q : Extent) : List Extent :=
  if q.2 = 0 ∨ p.1 + p.2 ≤ q.1 ∨ q.1 + q.2 ≤ p.1 then
    if p.2 = 0 then [] else [p]
  else
    (if p.1 < q.1 then [(p.1, q.1 - p.1)] else []) ++
    (if q.1 + q.2 < p.1 + p.2 then [(q.1 + q.2, p.1 + p.2 - (q.1 + q.2))] else [])

/-- Remove extent `q` from each piece of `ps`. -/
def cutPieces (ps : List Extent) (q : Extent) : List Extent :=
  ps.foldr (fun p acc => pieceDiff p q ++ acc) []

/-- `a.intersection_of(a, b); a.subtract(intersection)` — i.e. remove from
`a` every byte also in `b`, keeping the split structure of `a`
(ObjectCopyRequest.cc:534-536, :627-629). -/
def isetDiff (a b : IntervalSet) : IntervalSet :=
  a.foldr (fun p acc => b.foldl cutPieces [p] ++ acc) []

/-! ## Data model -/

/-- State of one snapshot-delta extent (`SNAPSHOT_EXTENT_STATE_*`). -/
inductive ExtentState : Type
  | dne
  | zeroed
  | data
deriving DecidableEq, Repr

/-- One image-relative interval of the snapshot delta with its state. -/
structure DeltaExtent : Type where
  off : Nat
  len : Nat
  state : ExtentState
deriving DecidableEq, Repr

/-- A `(write_snap, read_snap)` key (`io::WriteReadSnapIds`); `(0, 0)` is
`INITIAL_WRITE_READ_SNAP_IDS`. -/
abbrev Key := Nat × Nat

/-- The `SnapshotDelta`: keys with their interval lists, in ascending key
order (as a `std::map` iteration yields them). -/
abbrev SnapshotDelta := List (Key × List DeltaExtent)

/-- A destination mutation (`WRITE_OP_TYPE_*` with the offset/length payload
each `emplace_back` in the source passes). -/
inductive WriteOp : Type
  | write (off len : Nat)
  | zero (off len : Nat)
  | trunc (off : Nat)
  | removeTrunc (off : Nat)
  | remove
deriving DecidableEq, Repr

/-- `object_offset` field as stored by the `emplace_back` calls. -/
def WriteOp.objectOffset : WriteOp → Nat
  | .write off _ => off
  | .zero off _ => off
  | .trunc off => off
  | .removeTrunc off => off
  | .remove => 0

/-- `object_length` field as stored by the `emplace_back` calls. -/
def WriteOp.objectLength : WriteOp → Nat
  | .write _ len => len
  | .zero _ len => len
  | .trunc _ => 0
  | .removeTrunc _ => 0
  | .remove => 0

/-- Whether an op is a data `WRITE`. -/
def WriteOp.isWrite : WriteOp → Bool
  | .write _ _ => true
  | _ => false

/-- Destination object-map state values used by the planner. -/
inductive ObjectMapState : Type
  | OBJECT_EXISTS
  | OBJECT_EXISTS_CLEAN
deriving DecidableEq, Repr

/-- Static inputs of one `ObjectCopyRequest`, plus the image-context values
the planner consults.  `base` is the image offset of this object, so that
`imageExtents = [(base, objectSize)]` (the striper result for the trivial
layout).  `mayExist` is `m_dst_object_may_exist` (computed before planning
from per-snapshot object counts, `compute_dst_object_may_exist`).
`srcParentOverlap`/`dstParentOverlap` model `get_parent_overlap`:
`.error r` is a failed lookup (`r < 0`), `.ok p` a successful one. -/
structure Cfg : Type where
  base : Nat
  objectSize : Nat
  srcSnapIdStart : Nat
  srcHasParent : Bool
  flatten : Bool
  fastDiff : Bool
  snapMap : List (Nat × List Nat)
  mayExist : Nat → Bool
  srcParentOverlap : Nat → Except Int Nat
  dstParentOverlap : Nat → Except Int Nat

/-- `SnapMap[s].front()`: the primary destination snapshot for source snap
`s` (the source asserts the lookup succeeds and the list is non-empty;
the model uses defaults for the impossible cases). -/
def primaryDst (cfg : Cfg) (s : Nat) : Nat :=
  (((alGet s cfg.snapMap).getD []).headD 0)

/-- `read_from_parent` / initial `hide_parent`
(ObjectCopyRequest.cc:414-415, :574-575): copying from the very start and
the source image has a parent. -/
def readFromParent (cfg : Cfg) : Bool :=
  decide (cfg.srcSnapIdStart = 0) && cfg.srcHasParent

/-! ## Striper and parent-overlap helpers -/

/-- Modelled from the spec: the striper contract
`extent_to_file(layout, obj_no, 0, object_size) -> image_extents`
(section 6); for the layouts the planner is used with this is the single
image extent `[base, base + objectSize)` covering the object
(`m_image_extents` in `send_list_snaps`). -/
def imageExtents (cfg : Cfg) : List Extent := [(cfg.base, cfg.objectSize)]

/-- Modelled from the spec: the striper contract
`file_to_extents(layout, image_off, image_len, buffer_off) -> object_extents`
(section 6), for an image extent lying inside this object: the single
object-relative extent at `image_off - base`. -/
def fileToExtents (cfg : Cfg) (imageOff imageLen : Nat) : List Extent :=
  [(imageOff - cfg.base, imageLen)]

/-- Modelled from the spec: `prune_parent_extents` — clip the image extents
to `[0, overlap)`, dropping extents wholly beyond the overlap, and return
the pruned extents with the sum of their lengths (section 4.5: "prune
`m_image_extents` against that overlap ... seed `prev_end_size` to the sum
of pruned lengths"). -/
def pruneParentExtents (extents : List Extent) (overlap : Nat) :
    List Extent × Nat :=
  let pruned := extents.filterMap fun e =>
    if overlap ≤ e.1 then none else some (e.1, min e.2 (overlap - e.1))
  (pruned, (pruned.map (fun e => e.2)).foldl (· + ·) 0)

/-- The overlap a `get_parent_overlap` call leaves in its output variable:
the looked-up value on success, 0 on failure (the source initializes
`parent_overlap = 0` and ignores the output on `r < 0`,
ObjectCopyRequest.cc:646-653). -/
def overlapOrZero (e : Except Int Nat) : Nat :=
  match e with
  | .error _ => 0
  | .ok p => p

/-- The seed the hide-parent block at destination snapshot `d` would
produce: the pruned-length sum when the overlap lookup succeeds with a
positive overlap, `0` when it fails or is zero (ObjectCopyRequest.cc:
644-669 collapse all of those cases to clearing `hide_parent`). -/
def hideSeedAt (cfg : Cfg) (d : Nat) : Nat :=
  if overlapOrZero (cfg.dstParentOverlap d) = 0 then 0
  else (pruneParentExtents (imageExtents cfg)
    (overlapOrZero (cfg.dstParentOverlap d))).2

/-! ## compute_read_ops (ObjectCopyRequest.cc:409-517) -/

/-- Mutable state of `compute_read_ops`: the read-op map keyed by
`WriteReadSnapIds`, the collected initial-key DNE interval, and the
`only_dne_extents` flag. -/
structure ReadState : Type where
  readOps : List (Key × IntervalSet)
  dne : IntervalSet
  onlyDne : Bool

/-- Whether a non-initial delta key is skipped because the destination
object may not exist at `SnapMap[write_snap].front()`
(ObjectCopyRequest.cc:427-441). -/
def keySkipped (cfg : Cfg) (k : Key) : Bool :=
  decide (k ≠ ((0 : Nat), (0 : Nat))) && !(cfg.mayExist (primaryDst cfg k.1))

/-- Classification of one delta interval (ObjectCopyRequest.cc:443-474).
A `DNE` extent is collected for the parent path only under the initial key
with `read_from_parent` (the source asserts `DNE` occurs only under the
initial key); `ZEROED` clears `only_dne_extents`; `DATA` union-inserts a
read interval under the key and clears `only_dne_extents`. -/
def processDeltaExtent (rfp : Bool) (k : Key) (st : ReadState)
    (e : DeltaExtent) : ReadState :=
  match e.state with
  | .dne =>
    if k = ((0 : Nat), (0 : Nat)) ∧ rfp = true then
      { st with dne := unionInsert st.dne e.off e.len }
    else st
  | .zeroed => { st with onlyDne := false }
  | .data =>
    { st with
      readOps := alUpd keyLt k (fun iv => unionInsert iv e.off e.len) [] st.readOps
      onlyDne := false }

/-- Processing of one delta key: skip it entirely when the existence test
fails, otherwise classify each of its intervals. -/
def processDeltaEntry (cfg : Cfg) (st : ReadState)
    (entry : Key × List DeltaExtent) : ReadState :=
  if keySkipped cfg entry.1 = true then st
  else entry.2.foldl (processDeltaExtent (readFromParent cfg) entry.1) st

/-- One DNE interval of the parent-read synthesis
(ObjectCopyRequest.cc:496-510): clamp it to `[0, overlap)`, dropping it
when its start lies at or beyond the overlap, and union-insert the clamped
interval as a read op under `(first_src_snap, first_src_snap)`. -/
def parentClampStep (first p : Nat) (ro : List (Key × IntervalSet))
    (e : Extent) : List (Key × IntervalSet) :=
  if min (e.1 + e.2) p ≤ e.1 then ro
  else alUpd keyLt (first, first)
    (fun iv => unionInsert iv e.1 (min (e.1 + e.2) p - e.1)) [] ro

/-- The parent-read synthesis (ObjectCopyRequest.cc:477-512): clamp each
DNE interval to the source parent overlap of the first snap-map key and
union-insert it as a read op under the synthesized key
`(first_src_snap, first_src_snap)`; a failed overlap lookup adds nothing. -/
def addParentReadOps (cfg : Cfg) (dne : IntervalSet)
    (ro : List (Key × IntervalSet)) : List (Key × IntervalSet) :=
  match cfg.snapMap with
  | [] => ro
  | (first, _) :: _ =>
    match cfg.srcParentOverlap first with
    | .error _ => ro
    | .ok p => dne.foldl (parentClampStep first p) ro

/-- `compute_read_ops`: classify every delta key, then add the parent read
ops when DNE intervals were collected and either a non-DNE extent exists or
flatten was requested.  `m_read_snaps` is the key list of `readOps` in
order. -/
def computeReadOps (cfg : Cfg) (delta : SnapshotDelta) : ReadState :=
  let st := delta.foldl (processDeltaEntry cfg) ⟨[], [], true⟩
  if st.dne ≠ [] ∧ (st.onlyDne = false ∨ cfg.flatten = true) then
    { st with readOps := addParentReadOps cfg st.dne st.readOps }
  else st

/-! ## Read executor (send_read / handle_read, ObjectCopyRequest.cc:114-191) -/

/-- Environment responses for source reads: per key, the completion result,
the populated sparse `image_extent_map`, and `out_bl.length()`. -/
structure ReadOracle : Type where
  res : Key → Int
  extentMap : Key → List Extent
  outLen : Key → Nat

/-- Observable outcome of the read loop: the byte counts passed to the
progress handler in order, the keys actually read from the source, and the
error that aborted the loop (if any). -/
structure ReadPhase : Type where
  handlerCalls : List Nat
  issued : List Key
  err : Option Int
deriving DecidableEq, Repr

/-- The read loop.  A key with an empty `image_interval` issues no source
read and completes synchronously with result 0 (`handle_read(0)`), so the
handler still observes `out_bl.length() = 0`; a failed read finishes the
request with that error; a successful read reports `out_bl.length()` to the
handler (when one is supplied) and advances. -/
def runReads (handlerOn : Bool) (oracle : ReadOracle) :
    List (Key × IntervalSet) → ReadPhase
  | [] => ⟨[], [], none⟩
  | (k, iv) :: rest =>
    if iv = [] then
      let r := runReads handlerOn oracle rest
      ⟨(if handlerOn then [0] else []) ++ r.handlerCalls, r.issued, r.err⟩
    else if oracle.res k < 0 then ⟨[], [k], some (oracle.res k)⟩
    else
      let r := runReads handlerOn oracle rest
      ⟨(if handlerOn then [oracle.outLen k] else []) ++ r.handlerCalls,
        k :: r.issued, r.err⟩

/-- The sparse extent map a read op ends up holding: empty when no read was
issued (empty `image_interval`), otherwise the environment's response. -/
def effExtentMap (oracle : ReadOracle) (entry : Key × IntervalSet) : List Extent :=
  if entry.2 = [] then [] else oracle.extentMap entry.1

/-! ## merge_write_ops (ObjectCopyRequest.cc:519-567) -/

/-- State accumulated by `merge_write_ops`: `m_write_ops`,
`m_dst_data_interval` and `m_dst_zero_interval`, all keyed by source snap
id. -/
structure MergeState : Type where
  writeOps : List (Nat × List WriteOp)
  dataIntervals : List (Nat × IntervalSet)
  zeroIntervals : List (Nat × IntervalSet)

/-- Merge one read op: accumulate its sparse extent map into the data
interval of its write snap, record the unsatisfied remainder of the
requested interval as zeroed, and emit one `WRITE` per striper-converted
object extent of the returned extent map. -/
def mergeEntry (cfg : Cfg) (oracle : ReadOracle) (st : MergeState)
    (entry : Key × IntervalSet) : MergeState :=
  let ws := entry.1.1
  let em := effExtentMap oracle entry
  let data1 := em.foldl (fun d e => unionInsert d e.1 e.2)
    ((alGet ws st.dataIntervals).getD [])
  let residual := isetDiff entry.2 data1
  let newWrites := em.foldr
    (fun e acc =>
      (fileToExtents cfg e.1 e.2).map (fun oe => WriteOp.write oe.1 oe.2) ++ acc) []
  { writeOps :=
      if newWrites = [] then st.writeOps
      else alUpd natLt ws (fun ops => ops ++ newWrites) [] st.writeOps
    dataIntervals := alUpd natLt ws (fun _ => data1) [] st.dataIntervals
    zeroIntervals :=
      if residual = [] then st.zeroIntervals
      else alUpd natLt ws
        (fun z => residual.foldl (fun z e => unionInsert z e.1 e.2) z) []
        st.zeroIntervals }

/-- `merge_write_ops`: fold over the read ops in key order. -/
def mergeWriteOps (cfg : Cfg) (oracle : ReadOracle)
    (readOps : List (Key × IntervalSet)) : MergeState :=
  readOps.foldl (mergeEntry cfg oracle) ⟨[], [], []⟩

/-! ## compute_zero_ops (ObjectCopyRequest.cc:569-734) -/

/-- Zero-extent collection (ObjectCopyRequest.cc:578-610): a `ZEROED`
interval under a non-initial key is recorded for its write snap; under the
initial key it is attributed to the first snap-map key when hide-parent is
(initially) in effect, and dropped otherwise. -/
def collectZeroExtent (cfg : Cfg) (k : Key)
    (zi : List (Nat × IntervalSet)) (e : DeltaExtent) : List (Nat × IntervalSet) :=
  match e.state with
  | .zeroed =>
    if k ≠ ((0 : Nat), (0 : Nat)) then
      alUpd natLt k.1 (fun z => unionInsert z e.off e.len) [] zi
    else if readFromParent cfg = true then
      alUpd natLt ((cfg.snapMap.headD (0, [])).1)
        (fun z => unionInsert z e.off e.len) [] zi
    else zi
  | _ => zi

/-- Collection over one delta key. -/
def collectZeroEntry (cfg : Cfg) (zi : List (Nat × IntervalSet))
    (entry : Key × List DeltaExtent) : List (Nat × IntervalSet) :=
  entry.2.foldl (collectZeroExtent cfg entry.1) zi

/-- Seeding (ObjectCopyRequest.cc:615-618): ensure every snap-map key has a
(possibly empty) zero interval entry. -/
def seedZero (cfg : Cfg) (zi : List (Nat × IntervalSet)) :
    List (Nat × IntervalSet) :=
  cfg.snapMap.foldl (fun zi e => alUpd natLt e.1 id [] zi) zi

/-- The full `m_dst_zero_interval` at the start of the zero-op loop:
merge residuals, then delta `ZEROED` collection, then seeding. -/
def ziList (cfg : Cfg) (delta : SnapshotDelta) (merged : MergeState) :
    List (Nat × IntervalSet) :=
  seedZero cfg (delta.foldl (collectZeroEntry cfg) merged.zeroIntervals)

/-- One object extent of a zero interval (ObjectCopyRequest.cc:692-719):
returns the ops emitted for it and the updated `end_size`.  An extent
touching the current end of the object emits `REMOVE_TRUNC` (offset 0 under
live hide-parent), `REMOVE` (offset 0 below `prev_end_size`), `TRUNC`
(positive offset below `prev_end_size`) or nothing, and clamps `end_size`
to its offset; an interior extent emits `ZERO`. -/
def zeroExtentStep (hideParent : Bool) (prev endSize : Nat) (oe : Extent) :
    List WriteOp × Nat :=
  if endSize ≤ oe.1 + oe.2 then
    ((if oe.1 = 0 ∧ hideParent = true then [WriteOp.removeTrunc 0]
      else if oe.1 < prev then
        (if oe.1 = 0 then [WriteOp.remove] else [WriteOp.trunc oe.1])
      else []),
      min endSize oe.1)
  else ([WriteOp.zero oe.1 oe.2], endSize)

/-- Emit the zero ops of a whole zero interval: striper-convert each image
extent and fold `zeroExtentStep` over the object extents, accumulating the
emitted ops and threading `end_size`. -/
def emitZeroOps (cfg : Cfg) (hideParent : Bool) (prev : Nat)
    (zi : IntervalSet) (endSize0 : Nat) : List WriteOp × Nat :=
  zi.foldl (fun acc z =>
    (fileToExtents cfg z.1 z.2).foldl (fun acc oe =>
      (acc.1 ++ (zeroExtentStep hideParent prev acc.2 oe).1,
        (zeroExtentStep hideParent prev acc.2 oe).2)) acc) ([], endSize0)

/-- Per-iteration observables of the zero-op loop, recorded for each
processed source snap: `prevEntering` is `prev_end_size` on entry (used by
the early-`REMOVE` test), `removedEarly` marks that branch, `prevSeeded` is
`prev_end_size` after the hide-parent block, `hideLive` the value of
`hide_parent` used for emission, `endSizeFinal` the final `end_size`,
`opsAppended` the ops appended to this snap's batch, `hasBatchAfter`
whether `m_write_ops` holds a batch for this snap afterwards, `stateSet`
the object-map state recorded, and `prevExit` the `prev_end_size` passed to
the next iteration. -/
structure ZeroTrace : Type where
  snap : Nat
  prevEntering : Nat
  removedEarly : Bool
  prevSeeded : Nat
  hideLive : Bool
  endSizeFinal : Nat
  opsAppended : List WriteOp
  hasBatchAfter : Bool
  stateSet : Option ObjectMapState
  prevExit : Nat
deriving DecidableEq, Repr

/-- Loop state of `compute_zero_ops`. -/
structure ZeroState : Type where
  writeOps : List (Nat × List WriteOp)
  statePlan : List (Nat × ObjectMapState)
  hideParent : Bool
  prevEndSize : Nat
  trace : List ZeroTrace

/-- The hide-parent block of one zero-op iteration
(ObjectCopyRequest.cc:644-670): when hide-parent is live, look up the
destination parent overlap of the primary destination snapshot; a failed
lookup, zero overlap or empty pruning clears the flag; otherwise, at the
first zero-interval key, seed `prev_end_size` with the pruned length sum.
Returns the hide-parent flag and `prev_end_size` used by the rest of the
iteration. -/
def hideParentStep (cfg : Cfg) (dst firstKey s : Nat) (hide : Bool)
    (prev : Nat) : Bool × Nat :=
  if hide = true then
    if overlapOrZero (cfg.dstParentOverlap dst) = 0 then (false, prev)
    else if (pruneParentExtents (imageExtents cfg)
        (overlapOrZero (cfg.dstParentOverlap dst))).2 = 0 then (false, prev)
    else if s = firstKey then
      (true, prev + (pruneParentExtents (imageExtents cfg)
        (overlapOrZero (cfg.dstParentOverlap dst))).2)
    else (true, prev)
  else (false, prev)

/-- The zero interval of one iteration after subtracting the data
interval of its snap (ObjectCopyRequest.cc:625-629). -/
def zeroIterZi (cfg : Cfg) (dataIntervals : List (Nat × IntervalSet))
    (entry : Nat × IntervalSet) : IntervalSet :=
  isetDiff entry.2 ((alGet entry.1 dataIntervals).getD [])

/-- The hide-parent flag and (possibly seeded) `prev_end_size` of one
iteration. -/
def zeroHide (cfg : Cfg) (firstKey : Nat) (st : ZeroState)
    (entry : Nat × IntervalSet) : Bool × Nat :=
  hideParentStep cfg (primaryDst cfg entry.1) firstKey entry.1 st.hideParent
    st.prevEndSize

/-- `end_size` before zero-op emission: the seeded `prev_end_size` raised
to the end of every op already merged for this snap
(ObjectCopyRequest.cc:672-681). -/
def zeroEndSize0 (cfg : Cfg) (firstKey : Nat) (st : ZeroState)
    (entry : Nat × IntervalSet) : Nat :=
  ((alGet entry.1 st.writeOps).getD []).foldl
    (fun es op => max es (op.objectOffset + op.objectLength))
    (zeroHide cfg firstKey st entry).2

/-- The ops emitted for this iteration's zero interval and the final
`end_size`. -/
def zeroEmitted (cfg : Cfg) (dataIntervals : List (Nat × IntervalSet))
    (firstKey : Nat) (st : ZeroState) (entry : Nat × IntervalSet) :
    List WriteOp × Nat :=
  emitZeroOps cfg (zeroHide cfg firstKey st entry).1
    (zeroHide cfg firstKey st entry).2
    (zeroIterZi cfg dataIntervals entry)
    (zeroEndSize0 cfg firstKey st entry)

/-- `m_write_ops` after this iteration's zero-op emission. -/
def zeroWriteOps1 (cfg : Cfg) (dataIntervals : List (Nat × IntervalSet))
    (firstKey : Nat) (st : ZeroState) (entry : Nat × IntervalSet) :
    List (Nat × List WriteOp) :=
  if (zeroEmitted cfg dataIntervals firstKey st entry).1 = [] then st.writeOps
  else alUpd natLt entry.1
    (fun ops => ops ++ (zeroEmitted cfg dataIntervals firstKey st entry).1) []
    st.writeOps

/-- The object-map state this iteration records (ObjectCopyRequest.cc:
725-731): `EXISTS` when `end_size > 0` or hide-parent is live, upgraded to
`EXISTS_CLEAN` under fast-diff when `end_size == prev_end_size` and no
batch exists for this snap; nothing otherwise. -/
def zeroStateSet (cfg : Cfg) (dataIntervals : List (Nat × IntervalSet))
    (firstKey : Nat) (st : ZeroState) (entry : Nat × IntervalSet) :
    Option ObjectMapState :=
  if 0 < (zeroEmitted cfg dataIntervals firstKey st entry).2 ∨
      (zeroHide cfg firstKey st entry).1 = true then
    some (if cfg.fastDiff = true ∧
        (zeroEmitted cfg dataIntervals firstKey st entry).2 =
          (zeroHide cfg firstKey st entry).2 ∧
        alGet entry.1 (zeroWriteOps1 cfg dataIntervals firstKey st entry) = none
      then ObjectMapState.OBJECT_EXISTS_CLEAN
      else ObjectMapState.OBJECT_EXISTS)
  else none

/-- One iteration of the zero-op loop (ObjectCopyRequest.cc:621-733):
subtract the data interval, emit a lone `REMOVE` when the destination
object may not exist and the running size is positive, otherwise run the
hide-parent pruning, compute `end_size` from the existing batch, emit the
zero ops and record the object-map state. -/
def processZeroEntry (cfg : Cfg) (dataIntervals : List (Nat × IntervalSet))
    (firstKey : Nat) (st : ZeroState) (entry : Nat × IntervalSet) : ZeroState :=
  if cfg.mayExist (primaryDst cfg entry.1) = false ∧ 0 < st.prevEndSize then
    { st with
      writeOps := alUpd natLt entry.1 (fun ops => ops ++ [WriteOp.remove]) []
        st.writeOps
      prevEndSize := 0
      trace := st.trace ++
        [⟨entry.1, st.prevEndSize, true, st.prevEndSize, st.hideParent, 0,
          [WriteOp.remove],
          (alGet entry.1 (alUpd natLt entry.1
            (fun ops => ops ++ [WriteOp.remove]) [] st.writeOps)).isSome,
          none, 0⟩] }
  else
    { writeOps := zeroWriteOps1 cfg dataIntervals firstKey st entry
      statePlan :=
        match zeroStateSet cfg dataIntervals firstKey st entry with
        | some v => alUpd natLt entry.1 (fun _ => v)
            ObjectMapState.OBJECT_EXISTS st.statePlan
        | none => st.statePlan
      hideParent := (zeroHide cfg firstKey st entry).1
      prevEndSize := (zeroEmitted cfg dataIntervals firstKey st entry).2
      trace := st.trace ++
        [⟨entry.1, st.prevEndSize, false, (zeroHide cfg firstKey st entry).2,
          (zeroHide cfg firstKey st entry).1,
          (zeroEmitted cfg dataIntervals firstKey st entry).2,
          (zeroEmitted cfg dataIntervals firstKey st entry).1,
          (alGet entry.1 (zeroWriteOps1 cfg dataIntervals firstKey st entry)).isSome,
          zeroStateSet cfg dataIntervals firstKey st entry,
          (zeroEmitted cfg dataIntervals firstKey st entry).2⟩] }

/-- Initial state of the zero-op loop: the merged write ops, an empty state
plan, the initial hide-parent flag and `prev_end_size = 0`. -/
def zeroInit (cfg : Cfg) (merged : MergeState) : ZeroState :=
  ⟨merged.writeOps, [], readFromParent cfg, 0, []⟩

/-- `compute_zero_ops`: collect and seed the zero intervals, then fold the
per-snap iteration over them in ascending key order. -/
def computeZeroOps (cfg : Cfg) (delta : SnapshotDelta) (merged : MergeState) :
    ZeroState :=
  let zl := ziList cfg delta merged
  zl.foldl (processZeroEntry cfg merged.dataIntervals ((zl.headD (0, [])).1))
    (zeroInit cfg merged)

/-- The whole planning pipeline on given read results: read planning,
write-op merging and zero-op synthesis, yielding the final `WritePlan` and
`ObjectStatePlan`. -/
def planObjectCopy (cfg : Cfg) (delta : SnapshotDelta) (oracle : ReadOracle) :
    ZeroState :=
  computeZeroOps cfg delta
    (mergeWriteOps cfg oracle (computeReadOps cfg delta).readOps)

/-! ## Write executor (send_write_object / handle_write_object,
ObjectCopyRequest.cc:193-321) -/

/-- Destination snapshot context for a batch
(ObjectCopyRequest.cc:199-226): for a non-head batch, all destination snaps
of the mapping except the first, and the first remaining one (or 0) as the
snap sequence; for the head batch (`src_snap_seq = 0`), empty and 0. -/
def dstSnapContext (cfg : Cfg) (srcSnapSeq : Nat) : List Nat × Nat :=
  if srcSnapSeq = 0 then ([], 0)
  else
    let ds := ((alGet srcSnapSeq cfg.snapMap).getD []).drop 1
    (ds, ds.headD 0)

/-- Result normalization of `handle_write_object`
(ObjectCopyRequest.cc:301-306): `-ENOENT` (-2) and `-ERANGE` (-34) become
success. -/
def normalizeWriteResult (r : Int) : Int :=
  if r = -2 then 0 else if r = -34 then 0 else r

/-- The write drain loop: issue batches in ascending source-snap order;
an empty batch skips the server round trip (completing with 0); a
normalized negative result finishes the request with that error, anything
else advances to the next batch.  Returns the snaps whose batches
completed and the fatal error, if any. -/
def runWrites (oracle : Nat → Int) :
    List (Nat × List WriteOp) → List Nat × Option Int
  | [] => ([], none)
  | (s, ops) :: rest =>
    let r := if ops = [] then 0 else normalizeWriteResult (oracle s)
    if r < 0 then ([], some r)
    else
      let rec' := runWrites oracle rest
      (s :: rec'.1, rec'.2)

/-! ## Specification-side sets for the data-preservation claim -/

/-- The union of the DATA byte ranges of a snapshot delta. -/
def dataUnion (delta : SnapshotDelta) : Set Nat :=
  { x | ∃ entry ∈ delta, ∃ e ∈ entry.2,
      e.state = ExtentState.data ∧ e.off ≤ x ∧ x < e.off + e.len }

/-- The union of the byte ranges of all `WRITE` ops of a write plan,
converted back to image-relative offsets. -/
def imageWriteSet (cfg : Cfg) (plan : List (Nat × List WriteOp)) : Set Nat :=
  { x | ∃ entry ∈ plan, ∃ op ∈ entry.2, ∃ off len,
      op = WriteOp.write off len ∧
      cfg.base + off ≤ x ∧ x < cfg.base + off + len }

/-- The image-relative byte ranges of the `WRITE` ops in a single op
list. -/
def opsWriteSet (cfg : Cfg) (ops : List WriteOp) : Set Nat :=
  { x | ∃ op ∈ ops, ∃ off len, op = WriteOp.write off len ∧
      cfg.base + off ≤ x ∧ x < cfg.base + off + len }

/-- The union of the byte ranges of all read-op intervals. -/
def readSet (ros : List (Key × IntervalSet)) : Set Nat :=
  { x | ∃ e ∈ ros, x ∈ toSet e.2 }

/-- The DATA bytes a single interval list contributes. -/
def extsDataSet (ivs : List DeltaExtent) : Set Nat :=
  { x | ∃ e ∈ ivs, e.state = ExtentState.data ∧ e.off ≤ x ∧ x < e.off + e.len }

/-- The DATA bytes the delta records under one key. -/
def deltaDataSetAt (delta : SnapshotDelta) (k : Key) : Set Nat :=
  { x | ∃ entry ∈ delta, entry.1 = k ∧ x ∈ extsDataSet entry.2 }

/-! ## Concrete instances used as counterexamples and witnesses -/

/-- A flatten deep-copy of object 0 (object size 100) with one mapped
snapshot `5 -> [105]` whose destination object is ruled out by the
existence map, a source parent overlap of 50 and a destination parent
overlap of 40. -/
def cxCfg1 : Cfg :=
  ⟨0, 100, 0, true, true, false, [(5, [105])], fun d => decide (d ≠ 105),
    fun _ => .ok 50, fun _ => .ok 40⟩

/-- Initial-key delta: bytes 0..30 never existed (parent candidates),
bytes 30..40 zeroed. -/
def cxDelta1 : SnapshotDelta :=
  [(((0 : Nat), (0 : Nat)), [⟨0, 30, .dne⟩, ⟨30, 10, .zeroed⟩])]

/-- The parent read returns all 30 requested bytes. -/
def cxOracle1 : ReadOracle := ⟨fun _ => 0, fun _ => [(0, 30)], fun _ => 30⟩

/-- Witness configuration for the amended existence-map invariant: one
mapped snapshot `5 -> [105]` ruled out by the existence map, no parent. -/
def wCfg1 : Cfg :=
  ⟨0, 100, 1, false, false, false, [(5, [105])], fun d => decide (d ≠ 105),
    fun _ => .ok 0, fun _ => .ok 0⟩

/-- A zeroed interval recorded between snaps 3 and 5. -/
def wDelta1 : SnapshotDelta := [(((5 : Nat), (3 : Nat)), [⟨0, 4, .zeroed⟩])]

/-- No reads happen in the witness run. -/
def wOracle1 : ReadOracle := ⟨fun _ => 0, fun _ => [], fun _ => 0⟩

/-- Copy with snaps `10 -> [110]`, `20 -> [120]`, fast-diff enabled,
everything allowed to exist, no parent. -/
def cxCfg9 : Cfg :=
  ⟨0, 100, 1, false, false, true, [(10, [110]), (20, [120])], fun _ => true,
    fun _ => .ok 0, fun _ => .ok 0⟩

/-- Data written before snap 10, bytes 2..5 zeroed between snaps 15 and 20. -/
def cxDelta9 : SnapshotDelta :=
  [(((10 : Nat), (5 : Nat)), [⟨0, 10, .data⟩]),
   (((20 : Nat), (15 : Nat)), [⟨2, 3, .zeroed⟩])]

/-- The snap-10 read returns all 10 requested bytes. -/
def cxOracle9 : ReadOracle :=
  ⟨fun _ => 0, fun k => if k = (10, 5) then [(0, 10)] else [], fun _ => 10⟩

/-- The zero-op loop trace entry the run on `cxCfg9`/`cxDelta9` records for
snap 20: a lone `ZERO` op, `end_size = prev_end_size = 10`, state
`OBJECT_EXISTS`. -/
def wTrace9 : ZeroTrace :=
  ⟨20, 10, false, 10, false, 10, [WriteOp.zero 2 3], true,
    some ObjectMapState.OBJECT_EXISTS, 10⟩

/-- Copy with one mapped snapshot `5 -> [105]` ruled out by the existence
map, no parent. -/
def cxCfg3 : Cfg :=
  ⟨0, 100, 1, false, false, false, [(5, [105])], fun d => decide (d ≠ 105),
    fun _ => .ok 0, fun _ => .ok 0⟩

/-- A DATA interval under the non-initial key `(5, 3)`. -/
def cxDelta3 : SnapshotDelta := [(((5 : Nat), (3 : Nat)), [⟨0, 10, .data⟩])]

/-- No read happens (the key is skipped). -/
def cxOracle3 : ReadOracle := ⟨fun _ => 0, fun _ => [], fun _ => 0⟩

/-- Witness configuration for the amended data-preservation claim: one
mapped snapshot, everything allowed to exist, no parent. -/
def wCfg3 : Cfg :=
  ⟨0, 100, 1, false, false, false, [(10, [110])], fun _ => true,
    fun _ => .ok 0, fun _ => .ok 0⟩

/-- A DATA interval under the initial key. -/
def wDelta3 : SnapshotDelta := [(((0 : Nat), (0 : Nat)), [⟨0, 5, .data⟩])]

/-- The read returns exactly the requested interval. -/
def wOracle3 : ReadOracle := ⟨fun _ => 0, fun _ => [(0, 5)], fun _ => 5⟩

/-- Copy of plain head data: `SnapMap = {10 -> [110]}` but the delta's only
key is the initial one, so the write plan gets the head key `0`. -/
def cxCfg8 : Cfg :=
  ⟨0, 100, 1, false, false, false, [(10, [110])], fun _ => true,
    fun _ => .ok 0, fun _ => .ok 0⟩

/-- A DATA interval under the initial key. -/
def cxDelta8 : SnapshotDelta := [(((0 : Nat), (0 : Nat)), [⟨0, 5, .data⟩])]

/-- The read returns exactly the requested interval. -/
def cxOracle8 : ReadOracle := ⟨fun _ => 0, fun _ => [(0, 5)], fun _ => 5⟩

/-- Witness run whose write plan has the non-head key 10. -/
def wDelta8 : SnapshotDelta := [(((10 : Nat), (7 : Nat)), [⟨0, 5, .data⟩])]

/-- Two planned reads, the first of which fails with `-EIO` (-5). -/
def cxReadOps10 : List (Key × IntervalSet) :=
  [(((1 : Nat), (1 : Nat)), [(0, 4)]), (((2 : Nat), (2 : Nat)), [(0, 4)])]

/-- Oracle failing every read with `-EIO` (-5). -/
def cxOracle10 : ReadOracle := ⟨fun _ => -5, fun _ => [], fun _ => 0⟩

/-- Witness read plan: one real read and one empty-interval key. -/
def wReadOps10 : List (Key × IntervalSet) :=
  [(((1 : Nat), (1 : Nat)), [(0, 4)]), (((2 : Nat), (2 : Nat)), [])]

/-- Oracle returning 4 bytes for every read. -/
def wOracle10 : ReadOracle := ⟨fun _ => 0, fun _ => [(0, 4)], fun _ => 4⟩

/-- Copy with a snapshot mapped to three destination snapshots
`7 -> [100, 101, 102]`. -/
def wCfg5 : Cfg :=
  ⟨0, 100, 1, false, false, false, [(7, [100, 101, 102])], fun _ => true,
    fun _ => .ok 0, fun _ => .ok 0⟩

/-- Flatten copy with first snap-map key 5 and a source parent overlap of
8 bytes. -/
def wCfg7 : Cfg :=
  ⟨0, 100, 0, true, true, false, [(5, [105])], fun _ => true,
    fun _ => .ok 8, fun _ => .ok 0⟩

/-! ## Order facts -/

theorem natLt_ne {a b : Nat} (h : natLt a b = true) : a ≠ b := by
  simp only [natLt, decide_eq_true_eq] at h; omega

theorem natLt_trans {a b c : Nat} (h1 : natLt a b = true)
    (h2 : natLt b c = true) : natLt a c = true := by
  simp only [natLt, decide_eq_true_eq] at *; omega

theorem natLt_total {a b : Nat} (h : a ≠ b) :
    natLt a b = true ∨ natLt b a = true := by
  simp only [natLt, decide_eq_true_eq]; omega

theorem keyLt_iff {a b : Key} :
    keyLt a b = true ↔ a.1 < b.1 ∨ (a.1 = b.1 ∧ a.2 < b.2) := by
  simp [keyLt]

theorem keyLt_ne {a b : Key} (h : keyLt a b = true) : a ≠ b := by
  rw [keyLt_iff] at h
  intro hab
  subst hab
  omega

theorem keyLt_trans {a b c : Key} (h1 : keyLt a b = true)
    (h2 : keyLt b c = true) : keyLt a c = true := by
  rw [keyLt_iff] at *; omega

theorem keyLt_total {a b : Key} (h : a ≠ b) :
    keyLt a b = true ∨ keyLt b a = true := by
  rcases a with ⟨a1, a2⟩
  rcases b with ⟨b1, b2⟩
  have h2 : ¬(a1 = b1 ∧ a2 = b2) := fun hc => h (by rw [hc.1, hc.2])
  rw [keyLt_iff, keyLt_iff]
  dsimp only
  omega

/-! ## Association-list lemmas -/

theorem alGet_eq_none_of {κ α : Type} [DecidableEq κ] (k : κ)
    (l : List (κ × α)) (h : ∀ e ∈ l, e.1 ≠ k) : alGet k l = none := by
  induction l with
  | nil => rfl
  | cons e rest ih =>
    simp only [alGet]
    rw [if_neg (h e (by simp))]
    exact ih fun e' he' => h e' (by simp [he'])

theorem alGet_alUpd_self {κ α : Type} [DecidableEq κ] (lt : κ → κ → Bool)
    (hne : ∀ a b : κ, lt a b = true → a ≠ b)
    (htr : ∀ a b c : κ, lt a b = true → lt b c = true → lt a c = true)
    (k : κ) (f : α → α) (d : α) (l : List (κ × α)) (hs : AlSorted lt l) :
    alGet k (alUpd lt k f d l) = some (f ((alGet k l).getD d)) := by
  induction l with
  | nil => simp [alUpd, alGet]
  | cons e rest ih =>
    rcases List.pairwise_cons.mp hs with ⟨hhead, htail⟩
    by_cases hk : k = e.1
    · simp [alUpd, alGet, hk]
    · have hk2 : ¬(e.1 = k) := fun hc => hk hc.symm
      simp only [alUpd, if_neg hk]
      by_cases hlt : lt k e.1 = true
      · rw [if_pos hlt]
        have hrest : alGet k rest = none := by
          refine alGet_eq_none_of k rest fun e' he' => ?_
          exact fun hc => hne k e'.1 (htr _ _ _ hlt (hhead e' he')) hc.symm
        simp [alGet, hk2, hrest]
      · rw [if_neg hlt]
        simp only [alGet, if_neg hk2]
        exact ih htail

theorem alGet_alUpd_ne {κ α : Type} [DecidableEq κ] (lt : κ → κ → Bool)
    (k k' : κ) (hkk : k' ≠ k) (f : α → α) (d : α) (l : List (κ × α)) :
    alGet k' (alUpd lt k f d l) = alGet k' l := by
  have hkk2 : ¬(k = k') := fun hc => hkk hc.symm
  induction l with
  | nil => simp [alUpd, alGet, hkk2]
  | cons e rest ih =>
    by_cases hk : k = e.1
    · have he2 : ¬(e.1 = k') := by rw [← hk]; exact hkk2
      simp [alUpd, alGet, if_pos hk, he2]
    · simp only [alUpd, if_neg hk]
      by_cases hlt : lt k e.1 = true
      · rw [if_pos hlt]
        simp [alGet, hkk2]
      · rw [if_neg hlt]
        by_cases he : e.1 = k'
        · simp [alGet, he]
        · simp [alGet, he, ih]

theorem alKeys_cons {κ α : Type} (e : κ × α) (l : List (κ × α)) :
    alKeys (e :: l) = e.1 :: alKeys l := rfl

theorem mem_alKeys_of_mem {κ α : Type} (e : κ × α) (l : List (κ × α))
    (h : e ∈ l) : e.1 ∈ alKeys l := List.mem_map_of_mem _ h

theorem alUpd_keys_sub {κ α : Type} [DecidableEq κ] (lt : κ → κ → Bool)
    (k : κ) (f : α → α) (d : α) (l : List (κ × α)) :
    ∀ e ∈ alUpd lt k f d l, e.1 = k ∨ e.1 ∈ alKeys l := by
  induction l with
  | nil =>
    intro e' he'
    simp only [alUpd, List.mem_singleton] at he'
    exact Or.inl (by rw [he'])
  | cons e rest ih =>
    intro e' he'
    simp only [alUpd] at he'
    by_cases hk : k = e.1
    · rw [if_pos hk] at he'
      rcases List.mem_cons.mp he' with h | h
      · right; rw [alKeys_cons, h]; exact List.mem_cons_self _ _
      · right; rw [alKeys_cons]
        exact List.mem_cons_of_mem _ (mem_alKeys_of_mem e' rest h)
    · rw [if_neg hk] at he'
      by_cases hlt : lt k e.1 = true
      · rw [if_pos hlt] at he'
        rcases List.mem_cons.mp he' with h | h
        · left; rw [h]
        · right; rw [alKeys_cons]
          rcases List.mem_cons.mp h with h2 | h2
          · rw [h2]; exact List.mem_cons_self _ _
          · exact List.mem_cons_of_mem _ (mem_alKeys_of_mem e' rest h2)
      · rw [if_neg hlt] at he'
        rcases List.mem_cons.mp he' with h | h
        · right; rw [alKeys_cons, h]; exact List.mem_cons_self _ _
        · rcases ih e' h with h2 | h2
          · exact Or.inl h2
          · right; rw [alKeys_cons]; exact List.mem_cons_of_mem _ h2

theorem alUpd_sorted {κ α : Type} [DecidableEq κ] (lt : κ → κ → Bool)
    (htr : ∀ a b c : κ, lt a b = true → lt b c = true → lt a c = true)
    (htot : ∀ a b : κ, a ≠ b → lt a b = true ∨ lt b a = true)
    (k : κ) (f : α → α) (d : α) (l : List (κ × α)) (hs : AlSorted lt l) :
    AlSorted lt (alUpd lt k f d l) := by
  induction l with
  | nil => simp [alUpd, AlSorted]
  | cons e rest ih =>
    rcases List.pairwise_cons.mp hs with ⟨hhead, htail⟩
    by_cases hk : k = e.1
    · simp only [alUpd, if_pos hk]
      exact List.pairwise_cons.mpr ⟨fun b hb => hhead b hb, htail⟩
    · simp only [alUpd, if_neg hk]
      by_cases hlt : lt k e.1 = true
      · rw [if_pos hlt]
        refine List.pairwise_cons.mpr ⟨?_, hs⟩
        intro b hb
        rcases List.mem_cons.mp hb with h | h
        · subst h; exact hlt
        · exact htr _ _ _ hlt (hhead b h)
      · rw [if_neg hlt]
        refine List.pairwise_cons.mpr ⟨?_, ih htail⟩
        intro b hb
        rcases alUpd_keys_sub lt k f d rest b hb with h | h
        · rw [h]
          rcases htot k e.1 hk with h2 | h2
          · exact absurd h2 hlt
          · exact h2
        · simp only [alKeys, List.mem_map] at h
          rcases h with ⟨e', he', hfst⟩
          rw [← hfst]
          exact hhead e' he'

theorem alGet_mem {κ α : Type} [DecidableEq κ] (k : κ) (l : List (κ × α))
    (v : α) (h : alGet k l = some v) : (k, v) ∈ l := by
  induction l with
  | nil => simp [alGet] at h
  | cons e rest ih =>
    simp only [alGet] at h
    by_cases he : e.1 = k
    · rw [if_pos he] at h
      have : e = (k, v) := by
        rcases e with ⟨e1, e2⟩
        simp at he h
        simp [he, h]
      simp [← this]
    · rw [if_neg he] at h
      exact List.mem_cons_of_mem _ (ih h)

theorem alGet_isSome_of_mem_keys {κ α : Type} [DecidableEq κ] (k : κ)
    (l : List (κ × α)) (h : k ∈ alKeys l) : (alGet k l).isSome = true := by
  induction l with
  | nil => simp [alKeys] at h
  | cons e rest ih =>
    by_cases he : e.1 = k
    · simp [alGet, he]
    · simp only [alGet, if_neg he]
      simp only [alKeys, List.map_cons, List.mem_cons] at h
      rcases h with h | h
      · exact absurd h.symm he
      · exact ih h

/-! ## Interval-set lemmas -/

theorem toSet_nil : toSet [] = ∅ := by
  refine Set.eq_empty_iff_forall_not_mem.mpr ?_
  rintro x ⟨p, hp, h⟩
  simp at hp

theorem toSet_cons (e : Extent) (s : IntervalSet) :
    toSet (e :: s) = Set.Ico e.1 (e.1 + e.2) ∪ toSet s := by
  ext x
  simp only [toSet, Set.mem_setOf_eq, Set.mem_union, Set.mem_Ico, List.mem_cons]
  constructor
  · rintro ⟨p, (rfl | hp), h1, h2⟩
    · exact Or.inl ⟨h1, h2⟩
    · exact Or.inr ⟨p, hp, h1, h2⟩
  · rintro (⟨h1, h2⟩ | ⟨p, hp, h1, h2⟩)
    · exact ⟨e, Or.inl rfl, h1, h2⟩
    · exact ⟨p, Or.inr hp, h1, h2⟩

theorem toSet_unionInsert (s : IntervalSet) (off len : Nat) :
    toSet (unionInsert s off len) = toSet s ∪ Set.Ico off (off + len) := by
  induction s generalizing off len with
  | nil =>
    by_cases h : len = 0
    · subst h
      simp [unionInsert, toSet_nil]
    · rw [unionInsert, if_neg h]
      rw [toSet_cons, toSet_nil]
      ext x; simp
  | cons e rest ih =>
    by_cases h : len = 0
    · subst h
      simp [unionInsert]
    · rw [unionInsert, if_neg h]
      by_cases h1 : off + len < e.1
      · rw [if_pos h1, toSet_cons, toSet_cons]
        ext x
        simp only [Set.mem_union, Set.mem_Ico]
        by_cases hx : x ∈ toSet rest <;> simp [hx] <;> omega
      · rw [if_neg h1]
        by_cases h2 : e.1 + e.2 < off
        · rw [if_pos h2, toSet_cons, toSet_cons, ih]
          ext x
          simp only [Set.mem_union, Set.mem_Ico]
          by_cases hx : x ∈ toSet rest <;> simp [hx] <;> omega
        · rw [if_neg h2, ih, toSet_cons]
          ext x
          simp only [Set.mem_union, Set.mem_Ico]
          by_cases hx : x ∈ toSet rest <;> simp [hx] <;> omega

theorem unionInsert_lb (s : IntervalSet) (off len b : Nat)
    (hb : ∀ p ∈ s, b ≤ p.1) (hoff : b ≤ off) :
    ∀ p ∈ unionInsert s off len, b ≤ p.1 := by
  induction s generalizing off len with
  | nil =>
    by_cases h : len = 0
    · simp [unionInsert, h]
    · rw [unionInsert, if_neg h]
      intro p hp
      simp at hp
      simp [hp, hoff]
  | cons e rest ih =>
    by_cases h : len = 0
    · simpa [unionInsert, h] using hb
    · rw [unionInsert, if_neg h]
      by_cases h1 : off + len < e.1
      · rw [if_pos h1]
        intro p hp
        rcases List.mem_cons.mp hp with h2 | h2
        · simp [h2, hoff]
        · exact hb p h2
      · rw [if_neg h1]
        by_cases h2 : e.1 + e.2 < off
        · rw [if_pos h2]
          intro p hp
          rcases List.mem_cons.mp hp with h3 | h3
          · subst h3; exact hb p (by simp)
          · exact ih off len (fun p hp => hb p (by simp [hp])) hoff p h3
        · rw [if_neg h2]
          have hbe : b ≤ e.1 := hb e (by simp)
          exact ih _ _ (fun p hp => hb p (by simp [hp])) (by omega)

/-! ## Claim C2: zero-op synthesis case analysis -/

/-- C2: for every object-relative zero extent processed by the zero-op
synthesizer (via `zeroExtentStep`): when the extent reaches the running
`end_size`, the emitted op is `REMOVE_TRUNC(0)` if the offset is 0 and
hide-parent is live, else `REMOVE` if the offset is 0 and below
`prev_end_size`, else `TRUNC(off)` if the offset is positive and below
`prev_end_size`, else nothing, and `end_size` becomes
`min end_size off`; otherwise the op is `ZERO(off, len)` and `end_size`
is unchanged.  In particular an extent abutting end-of-object never emits
a `ZERO`, and emits a `TRUNC` when `0 < off < prev_end_size`. -/
theorem c2_zero_extent_step_cases (hp : Bool) (prev endSize : Nat) (oe : Extent) :
    (endSize ≤ oe.1 + oe.2 →
      (zeroExtentStep hp prev endSize oe).1 =
        (if oe.1 = 0 ∧ hp = true then [WriteOp.removeTrunc 0]
         else if oe.1 < prev then
           (if oe.1 = 0 then [WriteOp.remove] else [WriteOp.trunc oe.1])
         else []) ∧
      (zeroExtentStep hp prev endSize oe).2 = min endSize oe.1) ∧
    (oe.1 + oe.2 < endSize →
      zeroExtentStep hp prev endSize oe = ([WriteOp.zero oe.1 oe.2], endSize)) ∧
    (oe.1 + oe.2 = endSize →
      WriteOp.zero oe.1 oe.2 ∉ (zeroExtentStep hp prev endSize oe).1 ∧
      (0 < oe.1 → oe.1 < prev →
        (zeroExtentStep hp prev endSize oe).1 = [WriteOp.trunc oe.1])) := by
  refine ⟨?_, ?_, ?_⟩
  · intro h
    rw [zeroExtentStep, if_pos h]
    exact ⟨rfl, rfl⟩
  · intro h
    rw [zeroExtentStep, if_neg (by omega)]
  · intro h
    have h1 : endSize ≤ oe.1 + oe.2 := le_of_eq h.symm
    constructor
    · rw [zeroExtentStep, if_pos h1]
      split_ifs <;> simp
    · intro h2 h3
      rw [zeroExtentStep, if_pos h1]
      rw [if_neg (fun hc => by omega), if_pos h3, if_neg (by omega)]

/-- Witness for C2 at a concrete end-abutting extent. -/
theorem c2_zero_extent_step_cases_witness :
    (10 : Nat) ≤ 2 + 8 ∧ (zeroExtentStep false 5 10 (2, 8)).2 = min 10 2 :=
  ⟨by norm_num, ((c2_zero_extent_step_cases false 5 10 (2, 8)).1 (by norm_num)).2⟩

/-! ## Claim C5: destination snapshot context -/

/-- C5: for a batch with source snap `s ≠ 0` whose snap-map entry is `ds`,
the destination snapshot context is `ds` with its first element removed,
and the snap sequence is the first remaining element (or 0 when none
remain); for the head batch (`s = 0`) both are empty/zero. -/
theorem c5_dst_snap_context (cfg : Cfg) (s : Nat) (ds : List Nat) :
    (s ≠ 0 → alGet s cfg.snapMap = some ds →
      dstSnapContext cfg s = (ds.drop 1, (ds.drop 1).headD 0)) ∧
    dstSnapContext cfg 0 = ([], 0) := by
  constructor
  · intro h1 h2
    simp [dstSnapContext, h1, h2]
  · simp [dstSnapContext]

/-- Witness for C5 at the three-destination mapping `7 -> [100, 101, 102]`. -/
theorem c5_dst_snap_context_witness :
    (7 : Nat) ≠ 0 ∧ dstSnapContext wCfg5 7 = ([101, 102], 101) :=
  ⟨by decide,
    (c5_dst_snap_context wCfg5 7 [100, 101, 102]).1 (by decide) (by decide)⟩

/-! ## Claim C4: write-result normalization -/

/-- C4: the write completion results `-ENOENT` (-2) and `-ERANGE` (-34)
are normalized to success, so a run whose batches all complete with a
non-negative result, `-ENOENT` or `-ERANGE` issues every batch and
proceeds without error; any other negative result terminates the request
with exactly that error. -/
theorem c4_write_result_normalization :
    (normalizeWriteResult (-2) = 0 ∧ normalizeWriteResult (-34) = 0) ∧
    (∀ (batches : List (Nat × List WriteOp)) (oracle : Nat → Int),
      (∀ e ∈ batches, oracle e.1 = -2 ∨ oracle e.1 = -34 ∨ 0 ≤ oracle e.1) →
      runWrites oracle batches = (batches.map (fun e => e.1), none)) ∧
    (∀ (pre post : List (Nat × List WriteOp)) (s : Nat) (ops : List WriteOp)
      (oracle : Nat → Int),
      (∀ e ∈ pre, oracle e.1 = -2 ∨ oracle e.1 = -34 ∨ 0 ≤ oracle e.1) →
      ops ≠ [] → oracle s < 0 → oracle s ≠ -2 → oracle s ≠ -34 →
      (runWrites oracle (pre ++ (s, ops) :: post)).2 = some (oracle s)) := by
  have hnorm : ∀ r : Int, r = -2 ∨ r = -34 ∨ 0 ≤ r → ¬(normalizeWriteResult r < 0) := by
    intro r hr
    rcases hr with h | h | h <;> simp [normalizeWriteResult, h] <;> split_ifs <;> omega
  refine ⟨⟨by norm_num [normalizeWriteResult], by norm_num [normalizeWriteResult]⟩, ?_, ?_⟩
  · intro batches oracle h
    induction batches with
    | nil => rfl
    | cons b rest ih =>
      rcases b with ⟨s, ops⟩
      have hgood := h (s, ops) (by simp)
      simp only [runWrites]
      by_cases hops : ops = []
      · rw [if_pos hops, if_neg (by norm_num)]
        rw [ih (fun e he => h e (by simp [he]))]
        simp
      · rw [if_neg hops, if_neg (hnorm _ hgood)]
        rw [ih (fun e he => h e (by simp [he]))]
        simp
  · intro pre post s ops oracle h hops hneg h2 h34
    induction pre with
    | nil =>
      simp only [List.nil_append, runWrites]
      rw [if_neg hops]
      have heq : normalizeWriteResult (oracle s) = oracle s := by
        simp [normalizeWriteResult, h2, h34]
      rw [heq, if_pos hneg]
    | cons b rest ih =>
      rcases b with ⟨s', ops'⟩
      have hgood := h (s', ops') (by simp)
      simp only [List.cons_append, runWrites]
      by_cases hops' : ops' = []
      · rw [if_pos hops', if_neg (by norm_num)]
        exact ih fun e he => h e (by simp [he])
      · rw [if_neg hops', if_neg (hnorm _ hgood)]
        exact ih fun e he => h e (by simp [he])

/-- Witness for C4: a lone `REMOVE` batch completing with `-ERANGE` is
treated as a successful run. -/
theorem c4_write_result_normalization_witness :
    normalizeWriteResult (-34) = 0 ∧
    runWrites (fun _ => (-34 : Int)) [(1, [WriteOp.remove])] = ([1], none) :=
  ⟨c4_write_result_normalization.1.2,
    c4_write_result_normalization.2.1 [(1, [WriteOp.remove])]
      (fun _ => (-34 : Int)) (by decide)⟩

/-! ## Claim C10: progress-handler invocations -/

/-- C10 (amended): when a handler is supplied and every issued read
succeeds, the handler is invoked exactly once per planned read key, in key
order, with the out-buffer length of that key's read; a key with an empty
image interval issues no source read and reports 0. -/
theorem c10_read_progress (oracle : ReadOracle) (ros : List (Key × IntervalSet))
    (h : ∀ e ∈ ros, e.2 ≠ [] → 0 ≤ oracle.res e.1) :
    runReads true oracle ros =
      ⟨ros.map (fun e => if e.2 = [] then 0 else oracle.outLen e.1),
       (ros.filter (fun e => !decide (e.2 = []))).map (fun e => e.1),
       none⟩ := by
  induction ros with
  | nil => rfl
  | cons b rest ih =>
    rcases b with ⟨k, iv⟩
    have ihr := ih fun e he => h e (by simp [he])
    by_cases hiv : iv = []
    · simp only [runReads, if_pos hiv, ihr]
      simp [hiv, List.filter_cons]
    · have hres : ¬(oracle.res k < 0) := not_lt.mpr (h (k, iv) (by simp) hiv)
      simp only [runReads, if_neg hiv, if_neg hres, ihr]
      simp [hiv, List.filter_cons]

/-- Counterexample to C10 as stated: with two planned read keys and the
first read failing with `-EIO`, the handler is not invoked once per
planned key (it is never invoked) and the request terminates with the
error. -/
theorem c10_counterexample :
    (runReads true cxOracle10 cxReadOps10).handlerCalls.length ≠
      cxReadOps10.length ∧
    (runReads true cxOracle10 cxReadOps10).err = some (-5) := by
  constructor
  · decide
  · decide

/-- Witness for C10: one real read of 4 bytes and one empty-interval key
listed after it yield handler calls `[4, 0]` with only the first key read
from the source. -/
theorem c10_read_progress_witness :
    runReads true wOracle10 wReadOps10 =
      ⟨[4, 0], [((1 : Nat), (1 : Nat))], none⟩ :=
  c10_read_progress wOracle10 wReadOps10 (by decide)

/-! ## Claim C6: skipped keys produce no reads -/

/-- C6: a non-initial delta key whose write snap maps to a destination
snapshot ruled out by the existence map is skipped entirely: the read
planner's output on a delta containing the key equals its output on the
same delta with the key removed (no read op is created for any of its
intervals, and neither the DNE interval nor the only-DNE flag changes). -/
theorem c6_skipped_key_no_reads (cfg : Cfg) (pre post : SnapshotDelta)
    (K : Key) (ivs : List DeltaExtent) (ds : List Nat)
    (hK : K ≠ ((0 : Nat), (0 : Nat)))
    (hds : alGet K.1 cfg.snapMap = some ds)
    (hmay : cfg.mayExist (ds.headD 0) = false) :
    computeReadOps cfg (pre ++ (K, ivs) :: post) =
      computeReadOps cfg (pre ++ post) := by
  have hskip : keySkipped cfg K = true := by
    unfold keySkipped primaryDst
    rw [hds]
    simp
    exact ⟨by simpa using hK, by simpa using hmay⟩
  have hfold : (pre ++ (K, ivs) :: post).foldl (processDeltaEntry cfg)
      ⟨[], [], true⟩ =
      (pre ++ post).foldl (processDeltaEntry cfg) ⟨[], [], true⟩ := by
    rw [List.foldl_append, List.foldl_append, List.foldl_cons]
    congr 1
    simp [processDeltaEntry, hskip]
  unfold computeReadOps
  rw [hfold]

/-- Witness for C6: the key `(5, 3)` with a DATA extent is dropped when
snapshot 105 is ruled out. -/
theorem c6_skipped_key_no_reads_witness :
    computeReadOps cxCfg3 [(((5 : Nat), (3 : Nat)), [⟨0, 4, .data⟩])] =
      computeReadOps cxCfg3 [] :=
  c6_skipped_key_no_reads cxCfg3 [] [] ((5 : Nat), (3 : Nat))
    [⟨0, 4, .data⟩] [105] (by decide) (by decide) (by decide)

/-! ## Claim C7: parent-read clamping -/

theorem parentClampStep_fold_spec (first p : Nat) (dne : IntervalSet)
    (ro : List (Key × IntervalSet)) (hs : AlSorted keyLt ro) :
    (∀ k : Key, k ≠ (first, first) →
      alGet k (dne.foldl (parentClampStep first p) ro) = alGet k ro) ∧
    toSetO (alGet (first, first) (dne.foldl (parentClampStep first p) ro)) =
      toSetO (alGet (first, first) ro) ∪ (toSet dne ∩ Set.Ico 0 p) := by
  induction dne generalizing ro with
  | nil =>
    refine ⟨fun k hk => rfl, ?_⟩
    rw [toSet_nil]
    simp
  | cons e rest ih =>
    have hs1 : AlSorted keyLt (parentClampStep first p ro e) := by
      unfold parentClampStep
      split_ifs with h
      · exact hs
      · exact alUpd_sorted keyLt (fun a b c h1 h2 => keyLt_trans h1 h2)
          (fun a b h => keyLt_total h) _ _ _ _ hs
    rcases ih (parentClampStep first p ro e) hs1 with ⟨ih1, ih2⟩
    constructor
    · intro k hk
      rw [List.foldl_cons, ih1 k hk]
      unfold parentClampStep
      split_ifs with h
      · rfl
      · exact alGet_alUpd_ne keyLt _ _ hk _ _ _
    · rw [List.foldl_cons, ih2]
      have hone : toSetO (alGet (first, first) (parentClampStep first p ro e)) =
          toSetO (alGet (first, first) ro) ∪
            (Set.Ico e.1 (e.1 + e.2) ∩ Set.Ico 0 p) := by
        unfold parentClampStep
        split_ifs with h
        · have hempty : Set.Ico e.1 (e.1 + e.2) ∩ Set.Ico 0 p = ∅ := by
            ext x
            simp only [Set.mem_inter_iff, Set.mem_Ico, Set.mem_empty_iff_false,
              iff_false, not_and]
            omega
          rw [hempty]
          simp
        · rw [alGet_alUpd_self keyLt (fun a b h1 => keyLt_ne h1)
            (fun a b c h1 h2 => keyLt_trans h1 h2) _ _ _ _ hs]
          show toSet (unionInsert ((alGet (first, first) ro).getD [])
            e.1 (min (e.1 + e.2) p - e.1)) = _
          rw [toSet_unionInsert]
          have hico : Set.Ico e.1 (e.1 + (min (e.1 + e.2) p - e.1)) =
              Set.Ico e.1 (e.1 + e.2) ∩ Set.Ico 0 p := by
            ext x
            simp only [Set.mem_inter_iff, Set.mem_Ico]
            omega
          rw [hico]
          rfl
      rw [hone, toSet_cons]
      ext x
      simp only [Set.mem_union, Set.mem_inter_iff, Set.mem_Ico]
      by_cases hA : x ∈ toSetO (alGet (first, first) ro) <;>
        by_cases hB : x ∈ toSet rest <;> simp [hA, hB] <;> omega

/-- C7: when the DNE path runs (initial copy from a parented source with
collected DNE intervals, and either a non-DNE extent or a flatten
request), a successful parent-overlap lookup `p` adds under the
synthesized key `(first, first)` exactly the DNE bytes clamped to
`[0, p)` — intervals entirely beyond the overlap are dropped — leaving
every other read op untouched; a failed lookup leaves the read ops
entirely unchanged (the request does not fail). -/
theorem c7_parent_read_clamping (cfg : Cfg) (first : Nat) (ds : List Nat)
    (restMap : List (Nat × List Nat)) (dne : IntervalSet)
    (ro : List (Key × IntervalSet))
    (hmap : cfg.snapMap = (first, ds) :: restMap) (hs : AlSorted keyLt ro) :
    (∀ r : Int, cfg.srcParentOverlap first = .error r →
      addParentReadOps cfg dne ro = ro) ∧
    (∀ p : Nat, cfg.srcParentOverlap first = .ok p →
      (∀ k : Key, k ≠ (first, first) →
        alGet k (addParentReadOps cfg dne ro) = alGet k ro) ∧
      toSetO (alGet (first, first) (addParentReadOps cfg dne ro)) =
        toSetO (alGet (first, first) ro) ∪ (toSet dne ∩ Set.Ico 0 p)) := by
  constructor
  · intro r hr
    simp only [addParentReadOps, hmap, hr]
  · intro p hp
    have heq : addParentReadOps cfg dne ro = dne.foldl (parentClampStep first p) ro := by
      simp only [addParentReadOps, hmap, hp]
    rw [heq]
    exact parentClampStep_fold_spec first p dne ro hs

/-- Witness for C7: one DNE interval `[0, 10)` clamped to overlap 8 under
the synthesized key `(5, 5)`. -/
theorem c7_parent_read_clamping_witness :
    toSetO (alGet ((5 : Nat), (5 : Nat)) (addParentReadOps wCfg7 [(0, 10)] [])) =
      toSetO (alGet ((5 : Nat), (5 : Nat)) ([] : List (Key × IntervalSet))) ∪
        (toSet [(0, 10)] ∩ Set.Ico 0 8) :=
  ((c7_parent_read_clamping wCfg7 5 [105] [] [(0, 10)] [] rfl
    List.Pairwise.nil).2 8 rfl).2

/-! ## Zero-op loop helper lemmas -/

theorem emitZeroOps_stable (cfg : Cfg) (zi : IntervalSet) :
    emitZeroOps cfg false 0 zi 0 = ([], 0) := by
  induction zi with
  | nil => rfl
  | cons z rest ih =>
    have hstep : zeroExtentStep false 0 0 (z.1 - cfg.base, z.2) = ([], 0) := by
      simp [zeroExtentStep]
    simp only [emitZeroOps, List.foldl_cons, fileToExtents, List.foldl_nil,
      hstep] at ih ⊢
    simpa using ih

theorem hideParentStep_of_seed_zero (cfg : Cfg) (dst firstKey s : Nat)
    (hide : Bool) (prev : Nat) (hseed : hideSeedAt cfg dst = 0) :
    hideParentStep cfg dst firstKey s hide prev = (false, prev) := by
  unfold hideParentStep
  unfold hideSeedAt at hseed
  cases hide with
  | false => rfl
  | true =>
    rw [if_pos rfl]
    by_cases hp : overlapOrZero (cfg.dstParentOverlap dst) = 0
    · rw [if_pos hp]
    · rw [if_neg hp]
      rw [if_neg hp] at hseed
      rw [if_pos hseed]

theorem processZeroEntry_writeOps_other (cfg : Cfg)
    (dataIv : List (Nat × IntervalSet)) (firstKey : Nat) (st : ZeroState)
    (entry : Nat × IntervalSet) (s : Nat) (hne : entry.1 ≠ s) :
    alGet s (processZeroEntry cfg dataIv firstKey st entry).writeOps =
      alGet s st.writeOps := by
  have hns : s ≠ entry.1 := hne.symm
  by_cases h1 : cfg.mayExist (primaryDst cfg entry.1) = false ∧ 0 < st.prevEndSize
  · simp only [processZeroEntry, if_pos h1]
    exact alGet_alUpd_ne natLt entry.1 s hns _ _ _
  · simp only [processZeroEntry, if_neg h1, zeroWriteOps1]
    split_ifs with h2
    · rfl
    · exact alGet_alUpd_ne natLt entry.1 s hns _ _ _

theorem processZeroEntry_trace_mono (cfg : Cfg)
    (dataIv : List (Nat × IntervalSet)) (firstKey : Nat) (st : ZeroState)
    (entry : Nat × IntervalSet) (t : ZeroTrace) (h : t ∈ st.trace) :
    t ∈ (processZeroEntry cfg dataIv firstKey st entry).trace := by
  by_cases h1 : cfg.mayExist (primaryDst cfg entry.1) = false ∧ 0 < st.prevEndSize
  · simp only [processZeroEntry, if_pos h1]
    exact List.mem_append_left _ h
  · simp only [processZeroEntry, if_neg h1]
    exact List.mem_append_left _ h

theorem processZeroEntry_writeOps_sorted (cfg : Cfg)
    (dataIv : List (Nat × IntervalSet)) (firstKey : Nat) (st : ZeroState)
    (entry : Nat × IntervalSet) (hs : AlSorted natLt st.writeOps) :
    AlSorted natLt (processZeroEntry cfg dataIv firstKey st entry).writeOps := by
  by_cases h1 : cfg.mayExist (primaryDst cfg entry.1) = false ∧ 0 < st.prevEndSize
  · simp only [processZeroEntry, if_pos h1]
    exact alUpd_sorted natLt (fun a b c h1 h2 => natLt_trans h1 h2)
      (fun a b h => natLt_total h) _ _ _ _ hs
  · simp only [processZeroEntry, if_neg h1, zeroWriteOps1]
    split_ifs with h2
    · exact hs
    · exact alUpd_sorted natLt (fun a b c h1 h2 => natLt_trans h1 h2)
        (fun a b h => natLt_total h) _ _ _ _ hs

theorem zeroFold_writeOps_other (cfg : Cfg) (dataIv : List (Nat × IntervalSet))
    (firstKey : Nat) (zl : List (Nat × IntervalSet)) (s : Nat)
    (h : ∀ e ∈ zl, e.1 ≠ s) :
    ∀ st : ZeroState,
      alGet s ((zl.foldl (processZeroEntry cfg dataIv firstKey) st)).writeOps =
        alGet s st.writeOps := by
  induction zl with
  | nil => intro st; rfl
  | cons e rest ih =>
    intro st
    rw [List.foldl_cons, ih fun e' he' => h e' (by simp [he'])]
    exact processZeroEntry_writeOps_other _ _ _ _ _ _ (h e (by simp))

theorem zeroFold_trace_mono (cfg : Cfg) (dataIv : List (Nat × IntervalSet))
    (firstKey : Nat) (zl : List (Nat × IntervalSet)) (t : ZeroTrace) :
    ∀ st : ZeroState, t ∈ st.trace →
      t ∈ (zl.foldl (processZeroEntry cfg dataIv firstKey) st).trace := by
  induction zl with
  | nil => intro st h; exact h
  | cons e rest ih =>
    intro st h
    rw [List.foldl_cons]
    exact ih _ (processZeroEntry_trace_mono _ _ _ _ _ _ h)

theorem processZeroEntry_at_disallowed (cfg : Cfg)
    (dataIv : List (Nat × IntervalSet)) (firstKey : Nat) (st : ZeroState)
    (e : Nat × IntervalSet)
    (hdis : cfg.mayExist (primaryDst cfg e.1) = false)
    (hseed : hideSeedAt cfg (primaryDst cfg e.1) = 0)
    (hsw : AlSorted natLt st.writeOps)
    (hw : alGet e.1 st.writeOps = none) :
    ∃ t : ZeroTrace,
      (processZeroEntry cfg dataIv firstKey st e).trace = st.trace ++ [t] ∧
      t.snap = e.1 ∧
      (alGet e.1 (processZeroEntry cfg dataIv firstKey st e).writeOps).getD []
        = t.opsAppended ∧
      (t.opsAppended = [] ∨ t.opsAppended = [WriteOp.remove]) ∧
      (t.opsAppended = [WriteOp.remove] ↔ 0 < t.prevEntering) ∧
      t.prevExit = 0 := by
  by_cases hprev : 0 < st.prevEndSize
  · -- early-REMOVE branch
    have hget : alGet e.1
        (alUpd natLt e.1 (fun ops => ops ++ [WriteOp.remove]) [] st.writeOps) =
        some [WriteOp.remove] := by
      rw [alGet_alUpd_self natLt (fun a b h => natLt_ne h)
        (fun a b c h1 h2 => natLt_trans h1 h2) _ _ _ _ hsw, hw]
      rfl
    have hres : processZeroEntry cfg dataIv firstKey st e =
        { st with
          writeOps := alUpd natLt e.1 (fun ops => ops ++ [WriteOp.remove]) []
            st.writeOps
          prevEndSize := 0
          trace := st.trace ++
            [⟨e.1, st.prevEndSize, true, st.prevEndSize, st.hideParent, 0,
              [WriteOp.remove],
              (alGet e.1 (alUpd natLt e.1 (fun ops => ops ++ [WriteOp.remove]) []
                st.writeOps)).isSome, none, 0⟩] } := by
      simp [processZeroEntry, hdis, hprev]
    rw [hres]
    refine ⟨_, rfl, rfl, ?_, Or.inr rfl, ⟨fun _ => hprev, fun _ => rfl⟩, rfl⟩
    show (alGet e.1 (alUpd natLt e.1 (fun ops => ops ++ [WriteOp.remove]) []
      st.writeOps)).getD [] = [WriteOp.remove]
    rw [hget]
    rfl
  · -- disallowed but nothing to remove: the iteration is a no-op
    have hp0 : st.prevEndSize = 0 := by omega
    have hhps0 : hideParentStep cfg (primaryDst cfg e.1) firstKey e.1
        st.hideParent 0 = (false, 0) :=
      hideParentStep_of_seed_zero cfg (primaryDst cfg e.1) firstKey e.1
        st.hideParent 0 hseed
    have hres : processZeroEntry cfg dataIv firstKey st e =
        { st with
          hideParent := false
          prevEndSize := 0
          trace := st.trace ++
            [⟨e.1, 0, false, 0, false, 0, [],
              (alGet e.1 st.writeOps).isSome, none, 0⟩] } := by
      simp [processZeroEntry, zeroWriteOps1, zeroStateSet, zeroEmitted,
        zeroHide, zeroEndSize0, zeroIterZi, hp0, hhps0, hw, emitZeroOps_stable]
    rw [hres]
    refine ⟨_, rfl, rfl, ?_, Or.inl rfl, by simp, rfl⟩
    show (alGet e.1 st.writeOps).getD [] = []
    rw [hw]
    rfl

theorem zero_fold_remove_only (cfg : Cfg) (dataIv : List (Nat × IntervalSet))
    (firstKey s : Nat)
    (hdis : cfg.mayExist (primaryDst cfg s) = false)
    (hseed : hideSeedAt cfg (primaryDst cfg s) = 0) :
    ∀ (zl : List (Nat × IntervalSet)) (st : ZeroState),
      AlSorted natLt zl → AlSorted natLt st.writeOps →
      s ∈ alKeys zl → alGet s st.writeOps = none →
      ∃ t ∈ (zl.foldl (processZeroEntry cfg dataIv firstKey) st).trace,
        t.snap = s ∧
        (alGet s (zl.foldl (processZeroEntry cfg dataIv firstKey) st).writeOps).getD []
          = t.opsAppended ∧
        (t.opsAppended = [] ∨ t.opsAppended = [WriteOp.remove]) ∧
        (t.opsAppended = [WriteOp.remove] ↔ 0 < t.prevEntering) ∧
        t.prevExit = 0 := by
  intro zl
  induction zl with
  | nil => intro st _ _ hmem _; simp [alKeys] at hmem
  | cons e rest ih =>
    intro st hszl hsw hmem hw
    rcases List.pairwise_cons.mp hszl with ⟨hhead, htail⟩
    rw [List.foldl_cons]
    by_cases hes : e.1 = s
    · have hrest_ne : ∀ e' ∈ rest, e'.1 ≠ s := by
        intro e' he'
        have hlt := hhead e' he'
        rw [hes] at hlt
        exact (natLt_ne hlt).symm
      have hds : cfg.mayExist (primaryDst cfg e.1) = false := by rw [hes]; exact hdis
      have hss : hideSeedAt cfg (primaryDst cfg e.1) = 0 := by rw [hes]; exact hseed
      have hwe : alGet e.1 st.writeOps = none := by rw [hes]; exact hw
      rcases processZeroEntry_at_disallowed cfg dataIv firstKey st e hds hss hsw hwe
        with ⟨t, htr, hsnap, hops, hshape, hiff, hexit⟩
      refine ⟨t, ?_, by rw [hsnap, hes], ?_, hshape, hiff, hexit⟩
      · refine zeroFold_trace_mono cfg dataIv firstKey rest t _ ?_
        rw [htr]
        exact List.mem_append_right _ (by simp)
      · rw [zeroFold_writeOps_other cfg dataIv firstKey rest s hrest_ne]
        rw [← hes]
        exact hops
    · have hmem' : s ∈ alKeys rest := by
        rcases (List.mem_cons.mp hmem) with h | h
        · exact absurd h.symm hes
        · exact h
      exact ih _ htail
        (processZeroEntry_writeOps_sorted cfg dataIv firstKey st e hsw) hmem'
        (by rw [processZeroEntry_writeOps_other cfg dataIv firstKey st e s hes]
            exact hw)

/-! ## Sortedness of the planner's maps -/

theorem natUpd_sorted {α : Type} (k : Nat) (f : α → α) (d : α)
    (l : List (Nat × α)) (hs : AlSorted natLt l) :
    AlSorted natLt (alUpd natLt k f d l) :=
  alUpd_sorted natLt (fun a b c h1 h2 => natLt_trans h1 h2)
    (fun a b h => natLt_total h) k f d l hs

theorem mergeEntry_sorted (cfg : Cfg) (oracle : ReadOracle) (st : MergeState)
    (entry : Key × IntervalSet)
    (h1 : AlSorted natLt st.writeOps) (h3 : AlSorted natLt st.zeroIntervals) :
    AlSorted natLt (mergeEntry cfg oracle st entry).writeOps ∧
    AlSorted natLt (mergeEntry cfg oracle st entry).zeroIntervals := by
  constructor
  · simp only [mergeEntry]
    split_ifs with h
    · exact h1
    · exact natUpd_sorted _ _ _ _ h1
  · simp only [mergeEntry]
    split_ifs with h
    · exact h3
    · exact natUpd_sorted _ _ _ _ h3

theorem mergeFold_sorted (cfg : Cfg) (oracle : ReadOracle)
    (ros : List (Key × IntervalSet)) :
    ∀ st : MergeState,
      AlSorted natLt st.writeOps → AlSorted natLt st.zeroIntervals →
      AlSorted natLt (ros.foldl (mergeEntry cfg oracle) st).writeOps ∧
      AlSorted natLt (ros.foldl (mergeEntry cfg oracle) st).zeroIntervals := by
  induction ros with
  | nil => intro st h1 h3; exact ⟨h1, h3⟩
  | cons e rest ih =>
    intro st h1 h3
    rw [List.foldl_cons]
    rcases mergeEntry_sorted cfg oracle st e h1 h3 with ⟨h1', h3'⟩
    exact ih _ h1' h3'

theorem mergeWriteOps_sorted (cfg : Cfg) (oracle : ReadOracle)
    (ros : List (Key × IntervalSet)) :
    AlSorted natLt (mergeWriteOps cfg oracle ros).writeOps ∧
    AlSorted natLt (mergeWriteOps cfg oracle ros).zeroIntervals :=
  mergeFold_sorted cfg oracle ros ⟨[], [], []⟩ List.Pairwise.nil List.Pairwise.nil

theorem collectZeroExtent_sorted (cfg : Cfg) (k : Key)
    (zi : List (Nat × IntervalSet)) (e : DeltaExtent)
    (hs : AlSorted natLt zi) : AlSorted natLt (collectZeroExtent cfg k zi e) := by
  cases hstate : e.state <;> simp only [collectZeroExtent, hstate]
  · exact hs
  · split_ifs with h1 h2
    · exact natUpd_sorted _ _ _ _ hs
    · exact natUpd_sorted _ _ _ _ hs
    · exact hs
  · exact hs

theorem collectZeroEntry_sorted (cfg : Cfg) (entry : Key × List DeltaExtent) :
    ∀ zi : List (Nat × IntervalSet), AlSorted natLt zi →
      AlSorted natLt (collectZeroEntry cfg zi entry) := by
  show ∀ zi, AlSorted natLt zi →
    AlSorted natLt (entry.2.foldl (collectZeroExtent cfg entry.1) zi)
  induction entry.2 with
  | nil => intro zi hs; exact hs
  | cons e rest ih =>
    intro zi hs
    rw [List.foldl_cons]
    exact ih _ (collectZeroExtent_sorted cfg entry.1 zi e hs)

theorem collectFold_sorted (cfg : Cfg) (delta : SnapshotDelta) :
    ∀ zi : List (Nat × IntervalSet), AlSorted natLt zi →
      AlSorted natLt (delta.foldl (collectZeroEntry cfg) zi) := by
  induction delta with
  | nil => intro zi hs; exact hs
  | cons entry rest ih =>
    intro zi hs
    rw [List.foldl_cons]
    exact ih _ (collectZeroEntry_sorted cfg entry zi hs)

theorem seedZero_sorted (cfg : Cfg) :
    ∀ (l : List (Nat × List Nat)) (zi : List (Nat × IntervalSet)),
      AlSorted natLt zi →
      AlSorted natLt (l.foldl (fun zi e => alUpd natLt e.1 id [] zi) zi) := by
  intro l
  induction l with
  | nil => intro zi hs; exact hs
  | cons e rest ih =>
    intro zi hs
    rw [List.foldl_cons]
    exact ih _ (natUpd_sorted _ _ _ _ hs)

theorem ziList_sorted (cfg : Cfg) (delta : SnapshotDelta) (merged : MergeState)
    (h : AlSorted natLt merged.zeroIntervals) :
    AlSorted natLt (ziList cfg delta merged) :=
  seedZero_sorted cfg cfg.snapMap _ (collectFold_sorted cfg delta _ h)

/-! ## Claim C1: existence-map batches -/

/-- C1 (amended): for a source snapshot `s` processed by the zero-op loop
whose primary destination snapshot is disallowed by the existence map,
provided no write ops were merged under `s` from the read phase and the
destination hide-parent pruning at `s` is empty, the final batch
`WritePlan[s]` is either empty or exactly `[REMOVE]`; the `REMOVE` is
emitted exactly when the running `prev_end_size` was positive on entry,
and `prev_end_size` is zero afterwards. -/
theorem c1_remove_only (cfg : Cfg) (delta : SnapshotDelta) (oracle : ReadOracle)
    (s : Nat)
    (hdis : cfg.mayExist (primaryDst cfg s) = false)
    (hseed : hideSeedAt cfg (primaryDst cfg s) = 0)
    (hnw : alGet s (mergeWriteOps cfg oracle
      (computeReadOps cfg delta).readOps).writeOps = none)
    (hmem : s ∈ alKeys (ziList cfg delta
      (mergeWriteOps cfg oracle (computeReadOps cfg delta).readOps))) :
    ∃ t ∈ (planObjectCopy cfg delta oracle).trace,
      t.snap = s ∧
      (alGet s (planObjectCopy cfg delta oracle).writeOps).getD []
        = t.opsAppended ∧
      (t.opsAppended = [] ∨ t.opsAppended = [WriteOp.remove]) ∧
      (t.opsAppended = [WriteOp.remove] ↔ 0 < t.prevEntering) ∧
      t.prevExit = 0 := by
  have hms := mergeWriteOps_sorted cfg oracle (computeReadOps cfg delta).readOps
  have hzs := ziList_sorted cfg delta
    (mergeWriteOps cfg oracle (computeReadOps cfg delta).readOps) hms.2
  have hmain := zero_fold_remove_only cfg
    (mergeWriteOps cfg oracle (computeReadOps cfg delta).readOps).dataIntervals
    ((ziList cfg delta (mergeWriteOps cfg oracle
      (computeReadOps cfg delta).readOps)).headD (0, [])).1
    s hdis hseed
    (ziList cfg delta (mergeWriteOps cfg oracle (computeReadOps cfg delta).readOps))
    (zeroInit cfg (mergeWriteOps cfg oracle (computeReadOps cfg delta).readOps))
    hzs hms.1 hmem hnw
  simpa [planObjectCopy, computeZeroOps, zeroInit] using hmain

/-- Counterexample to C1 as stated: a flatten copy whose existence map
rules out the only mapped snapshot still produces the batch
`[WRITE(0, 30), TRUNC(30)]` for it (a parent read merged write ops under
the first snap-map key, and the live hide-parent pruning seeded
`prev_end_size`), which is neither empty nor `[REMOVE]`. -/
theorem c1_counterexample :
    cxCfg1.mayExist (primaryDst cxCfg1 5) = false ∧
    (alGet 5 (planObjectCopy cxCfg1 cxDelta1 cxOracle1).writeOps).getD [] =
      [WriteOp.write 0 30, WriteOp.trunc 30] ∧
    ¬((alGet 5 (planObjectCopy cxCfg1 cxDelta1 cxOracle1).writeOps).getD []
        = [] ∨
      (alGet 5 (planObjectCopy cxCfg1 cxDelta1 cxOracle1).writeOps).getD []
        = [WriteOp.remove]) :=
  ⟨by decide, by decide, by decide⟩

/-- Witness for C1: a zeroed interval under a disallowed snapshot with no
merged writes and no hide-parent leaves the batch empty (no `REMOVE`, as
`prev_end_size` was 0). -/
theorem c1_remove_only_witness :
    ∃ t ∈ (planObjectCopy wCfg1 wDelta1 wOracle1).trace,
      t.snap = 5 ∧
      (alGet 5 (planObjectCopy wCfg1 wDelta1 wOracle1).writeOps).getD []
        = t.opsAppended ∧
      (t.opsAppended = [] ∨ t.opsAppended = [WriteOp.remove]) ∧
      (t.opsAppended = [WriteOp.remove] ↔ 0 < t.prevEntering) ∧
      t.prevExit = 0 :=
  c1_remove_only wCfg1 wDelta1 wOracle1 5 (by decide) (by decide) (by decide)
    (by decide)

/-! ## Claim C9: object-map state recording -/

theorem processZeroEntry_removed (cfg : Cfg) (dataIv : List (Nat × IntervalSet))
    (firstKey : Nat) (st : ZeroState) (e : Nat × IntervalSet)
    (hcond : cfg.mayExist (primaryDst cfg e.1) = false ∧ 0 < st.prevEndSize) :
    ∃ t : ZeroTrace,
      (processZeroEntry cfg dataIv firstKey st e).trace = st.trace ++ [t] ∧
      t.snap = e.1 ∧ t.removedEarly = true ∧ t.stateSet = none ∧
      (processZeroEntry cfg dataIv firstKey st e).statePlan = st.statePlan := by
  refine ⟨⟨e.1, st.prevEndSize, true, st.prevEndSize, st.hideParent, 0,
    [WriteOp.remove],
    (alGet e.1 (alUpd natLt e.1 (fun ops => ops ++ [WriteOp.remove]) []
      st.writeOps)).isSome, none, 0⟩, ?_, rfl, rfl, rfl, ?_⟩
  · simp only [processZeroEntry, if_pos hcond]
  · simp only [processZeroEntry, if_pos hcond]

theorem zeroStateSet_isSome (cfg : Cfg) (dataIv : List (Nat × IntervalSet))
    (firstKey : Nat) (st : ZeroState) (e : Nat × IntervalSet) :
    (zeroStateSet cfg dataIv firstKey st e).isSome = true ↔
      (0 < (zeroEmitted cfg dataIv firstKey st e).2 ∨
        (zeroHide cfg firstKey st e).1 = true) := by
  unfold zeroStateSet
  split_ifs with hc hq <;> simp [hc]

theorem zeroStateSet_clean (cfg : Cfg) (dataIv : List (Nat × IntervalSet))
    (firstKey : Nat) (st : ZeroState) (e : Nat × IntervalSet) :
    zeroStateSet cfg dataIv firstKey st e =
        some ObjectMapState.OBJECT_EXISTS_CLEAN ↔
      ((0 < (zeroEmitted cfg dataIv firstKey st e).2 ∨
          (zeroHide cfg firstKey st e).1 = true) ∧
        cfg.fastDiff = true ∧
        (zeroEmitted cfg dataIv firstKey st e).2 =
          (zeroHide cfg firstKey st e).2 ∧
        (alGet e.1 (zeroWriteOps1 cfg dataIv firstKey st e)).isSome = false) := by
  unfold zeroStateSet
  by_cases hc : 0 < (zeroEmitted cfg dataIv firstKey st e).2 ∨
      (zeroHide cfg firstKey st e).1 = true
  · rw [if_pos hc]
    by_cases hq : cfg.fastDiff = true ∧
        (zeroEmitted cfg dataIv firstKey st e).2 =
          (zeroHide cfg firstKey st e).2 ∧
        alGet e.1 (zeroWriteOps1 cfg dataIv firstKey st e) = none
    · rw [if_pos hq]
      constructor
      · intro _
        exact ⟨hc, hq.1, hq.2.1, by simp [hq.2.2]⟩
      · intro _
        rfl
    · rw [if_neg hq]
      constructor
      · intro hcl
        exact absurd hcl (by simp)
      · rintro ⟨_, hf, hep, hbf⟩
        have hnone : alGet e.1 (zeroWriteOps1 cfg dataIv firstKey st e) = none := by
          rw [← Option.not_isSome_iff_eq_none]
          simp [hbf]
        exact absurd ⟨hf, hep, hnone⟩ hq
  · rw [if_neg hc]
    simp [hc]

theorem zeroStateSet_exists_state (cfg : Cfg) (dataIv : List (Nat × IntervalSet))
    (firstKey : Nat) (st : ZeroState) (e : Nat × IntervalSet) :
    zeroStateSet cfg dataIv firstKey st e = some ObjectMapState.OBJECT_EXISTS ↔
      ((0 < (zeroEmitted cfg dataIv firstKey st e).2 ∨
          (zeroHide cfg firstKey st e).1 = true) ∧
        ¬(cfg.fastDiff = true ∧
          (zeroEmitted cfg dataIv firstKey st e).2 =
            (zeroHide cfg firstKey st e).2 ∧
          (alGet e.1 (zeroWriteOps1 cfg dataIv firstKey st e)).isSome = false)) := by
  unfold zeroStateSet
  by_cases hc : 0 < (zeroEmitted cfg dataIv firstKey st e).2 ∨
      (zeroHide cfg firstKey st e).1 = true
  · rw [if_pos hc]
    by_cases hq : cfg.fastDiff = true ∧
        (zeroEmitted cfg dataIv firstKey st e).2 =
          (zeroHide cfg firstKey st e).2 ∧
        alGet e.1 (zeroWriteOps1 cfg dataIv firstKey st e) = none
    · rw [if_pos hq]
      constructor
      · intro hcl
        exact absurd hcl (by simp)
      · rintro ⟨_, hnq⟩
        refine absurd ⟨hq.1, hq.2.1, ?_⟩ hnq
        simp [hq.2.2]
    · rw [if_neg hq]
      constructor
      · intro _
        refine ⟨hc, fun hcon => ?_⟩
        have hnone : alGet e.1 (zeroWriteOps1 cfg dataIv firstKey st e) = none := by
          rw [← Option.not_isSome_iff_eq_none]
          simp [hcon.2.2]
        exact absurd ⟨hcon.1, hcon.2.1, hnone⟩ hq
      · intro _
        rfl
  · rw [if_neg hc]
    simp [hc]

theorem processZeroEntry_not_removed (cfg : Cfg)
    (dataIv : List (Nat × IntervalSet)) (firstKey : Nat) (st : ZeroState)
    (e : Nat × IntervalSet)
    (hcond : ¬(cfg.mayExist (primaryDst cfg e.1) = false ∧ 0 < st.prevEndSize))
    (hsp : AlSorted natLt st.statePlan) :
    ∃ t : ZeroTrace,
      (processZeroEntry cfg dataIv firstKey st e).trace = st.trace ++ [t] ∧
      t.snap = e.1 ∧ t.removedEarly = false ∧
      alGet e.1 (processZeroEntry cfg dataIv firstKey st e).statePlan =
        (if t.stateSet.isSome = true then t.stateSet
         else alGet e.1 st.statePlan) ∧
      (t.stateSet.isSome = true ↔ (0 < t.endSizeFinal ∨ t.hideLive = true)) ∧
      (t.stateSet = some ObjectMapState.OBJECT_EXISTS_CLEAN ↔
        ((0 < t.endSizeFinal ∨ t.hideLive = true) ∧ cfg.fastDiff = true ∧
          t.endSizeFinal = t.prevSeeded ∧ t.hasBatchAfter = false)) ∧
      (t.stateSet = some ObjectMapState.OBJECT_EXISTS ↔
        ((0 < t.endSizeFinal ∨ t.hideLive = true) ∧
          ¬(cfg.fastDiff = true ∧ t.endSizeFinal = t.prevSeeded ∧
            t.hasBatchAfter = false))) := by
  refine ⟨⟨e.1, st.prevEndSize, false, (zeroHide cfg firstKey st e).2,
    (zeroHide cfg firstKey st e).1,
    (zeroEmitted cfg dataIv firstKey st e).2,
    (zeroEmitted cfg dataIv firstKey st e).1,
    (alGet e.1 (zeroWriteOps1 cfg dataIv firstKey st e)).isSome,
    zeroStateSet cfg dataIv firstKey st e,
    (zeroEmitted cfg dataIv firstKey st e).2⟩, ?_, rfl, rfl, ?_,
    zeroStateSet_isSome cfg dataIv firstKey st e,
    zeroStateSet_clean cfg dataIv firstKey st e,
    zeroStateSet_exists_state cfg dataIv firstKey st e⟩
  · simp only [processZeroEntry, if_neg hcond]
  · simp only [processZeroEntry, if_neg hcond]
    cases hss : zeroStateSet cfg dataIv firstKey st e with
    | none => simp
    | some v =>
      simp only [Option.isSome_some, if_pos rfl]
      exact alGet_alUpd_self natLt (fun a b h => natLt_ne h)
        (fun a b c h1 h2 => natLt_trans h1 h2) _ _ _ _ hsp

theorem processZeroEntry_statePlan_other (cfg : Cfg)
    (dataIv : List (Nat × IntervalSet)) (firstKey : Nat) (st : ZeroState)
    (entry : Nat × IntervalSet) (s : Nat) (hne : entry.1 ≠ s) :
    alGet s (processZeroEntry cfg dataIv firstKey st entry).statePlan =
      alGet s st.statePlan := by
  have hns : s ≠ entry.1 := hne.symm
  by_cases h1 : cfg.mayExist (primaryDst cfg entry.1) = false ∧ 0 < st.prevEndSize
  · simp only [processZeroEntry, if_pos h1]
  · simp only [processZeroEntry, if_neg h1]
    cases hss : zeroStateSet cfg dataIv firstKey st entry with
    | none => rfl
    | some v => exact alGet_alUpd_ne natLt entry.1 s hns _ _ _

theorem processZeroEntry_statePlan_sorted (cfg : Cfg)
    (dataIv : List (Nat × IntervalSet)) (firstKey : Nat) (st : ZeroState)
    (entry : Nat × IntervalSet) (hs : AlSorted natLt st.statePlan) :
    AlSorted natLt (processZeroEntry cfg dataIv firstKey st entry).statePlan := by
  by_cases h1 : cfg.mayExist (primaryDst cfg entry.1) = false ∧ 0 < st.prevEndSize
  · simp only [processZeroEntry, if_pos h1]
    exact hs
  · simp only [processZeroEntry, if_neg h1]
    cases hss : zeroStateSet cfg dataIv firstKey st entry with
    | none => exact hs
    | some v => exact natUpd_sorted _ _ _ _ hs

theorem zeroFold_statePlan_other (cfg : Cfg) (dataIv : List (Nat × IntervalSet))
    (firstKey : Nat) (zl : List (Nat × IntervalSet)) (s : Nat)
    (h : ∀ e ∈ zl, e.1 ≠ s) :
    ∀ st : ZeroState,
      alGet s ((zl.foldl (processZeroEntry cfg dataIv firstKey) st)).statePlan =
        alGet s st.statePlan := by
  induction zl with
  | nil => intro st; rfl
  | cons e rest ih =>
    intro st
    rw [List.foldl_cons, ih fun e' he' => h e' (by simp [he'])]
    exact processZeroEntry_statePlan_other _ _ _ _ _ _ (h e (by simp))

theorem zero_fold_state_spec (cfg : Cfg) (dataIv : List (Nat × IntervalSet))
    (firstKey : Nat) :
    ∀ (zl : List (Nat × IntervalSet)) (st : ZeroState),
      AlSorted natLt zl → AlSorted natLt st.statePlan →
      (∀ e ∈ zl, alGet e.1 st.statePlan = none) →
      ∀ t ∈ (zl.foldl (processZeroEntry cfg dataIv firstKey) st).trace,
        t ∈ st.trace ∨
        (alGet t.snap
            (zl.foldl (processZeroEntry cfg dataIv firstKey) st).statePlan =
          t.stateSet ∧
        (t.removedEarly = false →
          (t.stateSet.isSome = true ↔
            (0 < t.endSizeFinal ∨ t.hideLive = true)) ∧
          (t.stateSet = some ObjectMapState.OBJECT_EXISTS_CLEAN ↔
            ((0 < t.endSizeFinal ∨ t.hideLive = true) ∧ cfg.fastDiff = true ∧
              t.endSizeFinal = t.prevSeeded ∧ t.hasBatchAfter = false)) ∧
          (t.stateSet = some ObjectMapState.OBJECT_EXISTS ↔
            ((0 < t.endSizeFinal ∨ t.hideLive = true) ∧
              ¬(cfg.fastDiff = true ∧ t.endSizeFinal = t.prevSeeded ∧
                t.hasBatchAfter = false))))) := by
  intro zl
  induction zl with
  | nil =>
    intro st _ _ _ t ht
    exact Or.inl ht
  | cons e rest ih =>
    intro st hszl hsp hnone t ht
    rcases List.pairwise_cons.mp hszl with ⟨hhead, htail⟩
    have hrest_ne : ∀ e' ∈ rest, e'.1 ≠ e.1 := by
      intro e' he'
      exact (natLt_ne (hhead e' he')).symm
    have hsp1 : AlSorted natLt
        (processZeroEntry cfg dataIv firstKey st e).statePlan :=
      processZeroEntry_statePlan_sorted cfg dataIv firstKey st e hsp
    have hnone1 : ∀ e' ∈ rest,
        alGet e'.1 (processZeroEntry cfg dataIv firstKey st e).statePlan = none := by
      intro e' he'
      rw [processZeroEntry_statePlan_other cfg dataIv firstKey st e e'.1
        (fun hc => hrest_ne e' he' hc.symm)]
      exact hnone e' (by simp [he'])
    rw [List.foldl_cons] at ht ⊢
    rcases ih (processZeroEntry cfg dataIv firstKey st e) htail hsp1 hnone1 t ht
      with hin | hP
    · -- t came from the head iteration or from before
      by_cases hcond : cfg.mayExist (primaryDst cfg e.1) = false ∧
          0 < st.prevEndSize
      · rcases processZeroEntry_removed cfg dataIv firstKey st e hcond with
          ⟨te, htr, hsnap, hrem, hstate, hplan⟩
        rw [htr] at hin
        rcases List.mem_append.mp hin with hold | hnew
        · exact Or.inl hold
        · have hte : t = te := by simpa using hnew
          subst hte
          refine Or.inr ⟨?_, ?_⟩
          · rw [zeroFold_statePlan_other cfg dataIv firstKey rest t.snap
              (by rw [hsnap]; exact hrest_ne)]
            rw [hsnap, hplan, hstate]
            exact hnone e (by simp)
          · intro hfalse
            rw [hrem] at hfalse
            exact absurd hfalse (by simp)
      · rcases processZeroEntry_not_removed cfg dataIv firstKey st e hcond hsp with
          ⟨te, htr, hsnap, hrem, hplan, hiff1, hiff2, hiff3⟩
        rw [htr] at hin
        rcases List.mem_append.mp hin with hold | hnew
        · exact Or.inl hold
        · have hte : t = te := by simpa using hnew
          subst hte
          refine Or.inr ⟨?_, fun _ => ⟨hiff1, hiff2, hiff3⟩⟩
          rw [zeroFold_statePlan_other cfg dataIv firstKey rest t.snap
            (by rw [hsnap]; exact hrest_ne)]
          rw [hsnap, hplan]
          by_cases hsome : t.stateSet.isSome = true
          · rw [if_pos hsome]
          · rw [if_neg hsome]
            rw [Option.not_isSome_iff_eq_none.mp hsome]
            exact hnone e (by simp)
    · exact Or.inr hP

/-- C9 (amended): for every snapshot processed by the zero-op synthesizer
(every recorded trace entry `t` that did not take the early-`REMOVE`
branch), the object-state plan maps `t.snap` to a state exactly when
`end_size > 0` or hide-parent is live; the state is `EXISTS`, upgraded to
`EXISTS_CLEAN` exactly when the destination additionally has the
`FAST_DIFF` feature, `end_size = prev_end_size` and no write-op batch of
any kind exists for this snap. -/
theorem c9_object_state (cfg : Cfg) (delta : SnapshotDelta)
    (oracle : ReadOracle) (t : ZeroTrace)
    (ht : t ∈ (planObjectCopy cfg delta oracle).trace)
    (hnr : t.removedEarly = false) :
    alGet t.snap (planObjectCopy cfg delta oracle).statePlan = t.stateSet ∧
    (t.stateSet.isSome = true ↔ (0 < t.endSizeFinal ∨ t.hideLive = true)) ∧
    (t.stateSet = some ObjectMapState.OBJECT_EXISTS_CLEAN ↔
      ((0 < t.endSizeFinal ∨ t.hideLive = true) ∧ cfg.fastDiff = true ∧
        t.endSizeFinal = t.prevSeeded ∧ t.hasBatchAfter = false)) ∧
    (t.stateSet = some ObjectMapState.OBJECT_EXISTS ↔
      ((0 < t.endSizeFinal ∨ t.hideLive = true) ∧
        ¬(cfg.fastDiff = true ∧ t.endSizeFinal = t.prevSeeded ∧
          t.hasBatchAfter = false))) := by
  have hms := mergeWriteOps_sorted cfg oracle (computeReadOps cfg delta).readOps
  have hzs := ziList_sorted cfg delta
    (mergeWriteOps cfg oracle (computeReadOps cfg delta).readOps) hms.2
  have ht' : t ∈ ((ziList cfg delta (mergeWriteOps cfg oracle
      (computeReadOps cfg delta).readOps)).foldl
        (processZeroEntry cfg (mergeWriteOps cfg oracle
          (computeReadOps cfg delta).readOps).dataIntervals
          ((ziList cfg delta (mergeWriteOps cfg oracle
            (computeReadOps cfg delta).readOps)).headD (0, [])).1)
        (zeroInit cfg (mergeWriteOps cfg oracle
          (computeReadOps cfg delta).readOps))).trace := by
    simpa [planObjectCopy, computeZeroOps] using ht
  rcases zero_fold_state_spec cfg
    (mergeWriteOps cfg oracle (computeReadOps cfg delta).readOps).dataIntervals
    ((ziList cfg delta (mergeWriteOps cfg oracle
      (computeReadOps cfg delta).readOps)).headD (0, [])).1
    (ziList cfg delta (mergeWriteOps cfg oracle
      (computeReadOps cfg delta).readOps))
    (zeroInit cfg (mergeWriteOps cfg oracle (computeReadOps cfg delta).readOps))
    hzs List.Pairwise.nil (fun e he => rfl) t ht' with hin | hP
  · exact absurd hin (by simp [zeroInit])
  · refine ⟨?_, hP.2 hnr⟩
    have := hP.1
    simpa [planObjectCopy, computeZeroOps] using this

/-- Counterexample to C9 as stated: with fast-diff enabled, snap 20's
batch holds only a `ZERO` op (no `WRITE`), `end_size = prev_end_size`,
yet the recorded state is `EXISTS`, not `EXISTS_CLEAN` — the source tests
`m_write_ops.count(src_snap_seq) == 0`, so any op in the batch (not just a
`WRITE`) blocks the upgrade. -/
theorem c9_counterexample :
    cxCfg9.fastDiff = true ∧
    wTrace9 ∈ (planObjectCopy cxCfg9 cxDelta9 cxOracle9).trace ∧
    wTrace9.removedEarly = false ∧
    wTrace9.endSizeFinal = wTrace9.prevSeeded ∧
    (∀ op ∈ (alGet 20 (planObjectCopy cxCfg9 cxDelta9 cxOracle9).writeOps).getD
      [], op.isWrite = false) ∧
    alGet 20 (planObjectCopy cxCfg9 cxDelta9 cxOracle9).statePlan =
      some ObjectMapState.OBJECT_EXISTS ∧
    ObjectMapState.OBJECT_EXISTS ≠ ObjectMapState.OBJECT_EXISTS_CLEAN := by
  refine ⟨by decide, by decide, by decide, by decide, by decide, by decide,
    by decide⟩

/-! ## Claim C8: write-plan key provenance -/

theorem mem_alKeys_alUpd {κ α : Type} [DecidableEq κ] (lt : κ → κ → Bool)
    (k0 : κ) (f : α → α) (d : α) (l : List (κ × α)) (k : κ)
    (h : k ∈ alKeys (alUpd lt k0 f d l)) : k = k0 ∨ k ∈ alKeys l := by
  rcases List.mem_map.mp h with ⟨e, he, hk⟩
  rcases alUpd_keys_sub lt k0 f d l e he with h1 | h1
  · exact Or.inl (by rw [← hk, h1])
  · exact Or.inr (by rw [← hk]; exact h1)

theorem alKeys_of_alGet_isSome {κ α : Type} [DecidableEq κ] (k : κ)
    (l : List (κ × α)) (h : (alGet k l).isSome = true) : k ∈ alKeys l := by
  induction l with
  | nil => simp [alGet] at h
  | cons e rest ih =>
    by_cases he : e.1 = k
    · rw [alKeys_cons, he]
      exact List.mem_cons_self _ _
    · rw [alKeys_cons]
      refine List.mem_cons_of_mem _ (ih ?_)
      simp only [alGet] at h
      rwa [if_neg he] at h

theorem readKeys_extent_fold (rfp : Bool) (key : Key) (ivs : List DeltaExtent) :
    ∀ (st : ReadState) (k : Key),
      k ∈ alKeys (ivs.foldl (processDeltaExtent rfp key) st).readOps →
      k = key ∨ k ∈ alKeys st.readOps := by
  induction ivs with
  | nil => intro st k h; exact Or.inr h
  | cons iv rest ih =>
    intro st k h
    rw [List.foldl_cons] at h
    rcases ih _ k h with h1 | h1
    · exact Or.inl h1
    · cases hstate : iv.state <;>
        simp only [processDeltaExtent, hstate] at h1
      · split_ifs at h1
        · exact Or.inr h1
        · exact Or.inr h1
      · exact Or.inr h1
      · rcases mem_alKeys_alUpd keyLt key _ [] st.readOps k h1 with h2 | h2
        · exact Or.inl h2
        · exact Or.inr h2

theorem readKeys_delta_fold (cfg : Cfg) (delta : SnapshotDelta) :
    ∀ (st : ReadState) (k : Key),
      k ∈ alKeys (delta.foldl (processDeltaEntry cfg) st).readOps →
      (∃ entry ∈ delta, entry.1 = k) ∨ k ∈ alKeys st.readOps := by
  induction delta with
  | nil => intro st k h; exact Or.inr h
  | cons entry rest ih =>
    intro st k h
    rw [List.foldl_cons] at h
    rcases ih _ k h with h1 | h1
    · rcases h1 with ⟨e2, he2, hk⟩
      exact Or.inl ⟨e2, by simp [he2], hk⟩
    · simp only [processDeltaEntry] at h1
      split_ifs at h1
      · exact Or.inr h1
      · rcases readKeys_extent_fold (readFromParent cfg) entry.1 entry.2 st k h1
          with h2 | h2
        · exact Or.inl ⟨entry, by simp, h2.symm⟩
        · exact Or.inr h2

theorem readKeys_parent_fold (first p : Nat) (dne : IntervalSet) :
    ∀ (ro : List (Key × IntervalSet)) (k : Key),
      k ∈ alKeys (dne.foldl (parentClampStep first p) ro) →
      k = (first, first) ∨ k ∈ alKeys ro := by
  induction dne with
  | nil => intro ro k h; exact Or.inr h
  | cons e rest ih =>
    intro ro k h
    rw [List.foldl_cons] at h
    rcases ih _ k h with h1 | h1
    · exact Or.inl h1
    · simp only [parentClampStep] at h1
      split_ifs at h1
      · exact Or.inr h1
      · rcases mem_alKeys_alUpd keyLt (first, first) _ [] ro k h1 with h2 | h2
        · exact Or.inl h2
        · exact Or.inr h2

theorem readKeys_sub (cfg : Cfg) (delta : SnapshotDelta) (k : Key)
    (h : k ∈ alKeys (computeReadOps cfg delta).readOps) :
    (∃ entry ∈ delta, entry.1 = k) ∨
    (∃ ds rest, cfg.snapMap = (k.1, ds) :: rest ∧ k.2 = k.1) := by
  simp only [computeReadOps] at h
  split_ifs at h
  · simp only at h
    unfold addParentReadOps at h
    cases hmap : cfg.snapMap with
    | nil =>
      rw [hmap] at h
      dsimp only at h
      rcases readKeys_delta_fold cfg delta _ k h with h1 | h1
      · exact Or.inl h1
      · simp [alKeys] at h1
    | cons fe restMap =>
      rcases fe with ⟨first, ds⟩
      rw [hmap] at h
      dsimp only at h
      cases hov : cfg.srcParentOverlap first with
      | error r =>
        rw [hov] at h
        dsimp only at h
        rcases readKeys_delta_fold cfg delta _ k h with h1 | h1
        · exact Or.inl h1
        · simp [alKeys] at h1
      | ok p =>
        rw [hov] at h
        dsimp only at h
        rcases readKeys_parent_fold first p _ _ k h with h1 | h1
        · subst h1
          exact Or.inr ⟨ds, restMap, rfl, rfl⟩
        · rcases readKeys_delta_fold cfg delta _ k h1 with h2 | h2
          · exact Or.inl h2
          · simp [alKeys] at h2
  · rcases readKeys_delta_fold cfg delta _ k h with h1 | h1
    · exact Or.inl h1
    · simp [alKeys] at h1

theorem mergeKeys_writeOps (cfg : Cfg) (oracle : ReadOracle)
    (ros : List (Key × IntervalSet)) :
    ∀ (st : MergeState) (s : Nat),
      s ∈ alKeys (ros.foldl (mergeEntry cfg oracle) st).writeOps →
      (∃ e ∈ ros, e.1.1 = s) ∨ s ∈ alKeys st.writeOps := by
  induction ros with
  | nil => intro st s h; exact Or.inr h
  | cons e rest ih =>
    intro st s h
    rw [List.foldl_cons] at h
    rcases ih _ s h with h1 | h1
    · rcases h1 with ⟨e2, he2, hk⟩
      exact Or.inl ⟨e2, by simp [he2], hk⟩
    · simp only [mergeEntry] at h1
      split_ifs at h1
      · exact Or.inr h1
      · rcases mem_alKeys_alUpd natLt e.1.1 _ [] st.writeOps s h1 with h2 | h2
        · exact Or.inl ⟨e, by simp, h2.symm⟩
        · exact Or.inr h2

theorem mergeKeys_zeroIntervals (cfg : Cfg) (oracle : ReadOracle)
    (ros : List (Key × IntervalSet)) :
    ∀ (st : MergeState) (s : Nat),
      s ∈ alKeys (ros.foldl (mergeEntry cfg oracle) st).zeroIntervals →
      (∃ e ∈ ros, e.1.1 = s) ∨ s ∈ alKeys st.zeroIntervals := by
  induction ros with
  | nil => intro st s h; exact Or.inr h
  | cons e rest ih =>
    intro st s h
    rw [List.foldl_cons] at h
    rcases ih _ s h with h1 | h1
    · rcases h1 with ⟨e2, he2, hk⟩
      exact Or.inl ⟨e2, by simp [he2], hk⟩
    · simp only [mergeEntry] at h1
      split_ifs at h1
      · exact Or.inr h1
      · rcases mem_alKeys_alUpd natLt e.1.1 _ [] st.zeroIntervals s h1 with h2 | h2
        · exact Or.inl ⟨e, by simp, h2.symm⟩
        · exact Or.inr h2

theorem collectKeys_extent (cfg : Cfg) (k : Key)
    (zi : List (Nat × IntervalSet)) (e : DeltaExtent) (s : Nat)
    (h : s ∈ alKeys (collectZeroExtent cfg k zi e)) :
    s = k.1 ∨ s = (cfg.snapMap.headD (0, [])).1 ∨ s ∈ alKeys zi := by
  cases hstate : e.state <;> simp only [collectZeroExtent, hstate] at h
  · exact Or.inr (Or.inr h)
  · split_ifs at h
    · rcases mem_alKeys_alUpd natLt k.1 _ [] zi s h with h2 | h2
      · exact Or.inl h2
      · exact Or.inr (Or.inr h2)
    · rcases mem_alKeys_alUpd natLt _ _ [] zi s h with h2 | h2
      · exact Or.inr (Or.inl h2)
      · exact Or.inr (Or.inr h2)
    · exact Or.inr (Or.inr h)
  · exact Or.inr (Or.inr h)

theorem collectKeys_entry (cfg : Cfg) (entry : Key × List DeltaExtent) :
    ∀ (zi : List (Nat × IntervalSet)) (s : Nat),
      s ∈ alKeys (collectZeroEntry cfg zi entry) →
      s = entry.1.1 ∨ s = (cfg.snapMap.headD (0, [])).1 ∨ s ∈ alKeys zi := by
  show ∀ zi s, s ∈ alKeys (entry.2.foldl (collectZeroExtent cfg entry.1) zi) → _
  induction entry.2 with
  | nil => intro zi s h; exact Or.inr (Or.inr h)
  | cons e rest ih =>
    intro zi s h
    rw [List.foldl_cons] at h
    rcases ih _ s h with h1 | h1 | h1
    · exact Or.inl h1
    · exact Or.inr (Or.inl h1)
    · exact collectKeys_extent cfg entry.1 zi e s h1

theorem collectKeys_fold (cfg : Cfg) (delta : SnapshotDelta) :
    ∀ (zi : List (Nat × IntervalSet)) (s : Nat),
      s ∈ alKeys (delta.foldl (collectZeroEntry cfg) zi) →
      (∃ entry ∈ delta, entry.1.1 = s) ∨
      s = (cfg.snapMap.headD (0, [])).1 ∨ s ∈ alKeys zi := by
  induction delta with
  | nil => intro zi s h; exact Or.inr (Or.inr h)
  | cons entry rest ih =>
    intro zi s h
    rw [List.foldl_cons] at h
    rcases ih _ s h with h1 | h1
    · rcases h1 with ⟨e2, he2, hk⟩
      exact Or.inl ⟨e2, by simp [he2], hk⟩
    · rcases h1 with h1 | h1
      · exact Or.inr (Or.inl h1)
      · rcases collectKeys_entry cfg entry zi s h1 with h2 | h2 | h2
        · exact Or.inl ⟨entry, by simp, h2.symm⟩
        · exact Or.inr (Or.inl h2)
        · exact Or.inr (Or.inr h2)

theorem seedKeys (cfg : Cfg) :
    ∀ (l : List (Nat × List Nat)) (zi : List (Nat × IntervalSet)) (s : Nat),
      s ∈ alKeys (l.foldl (fun zi e => alUpd natLt e.1 id [] zi) zi) →
      s ∈ l.map (fun e => e.1) ∨ s ∈ alKeys zi := by
  intro l
  induction l with
  | nil => intro zi s h; exact Or.inr h
  | cons e rest ih =>
    intro zi s h
    rw [List.foldl_cons] at h
    rcases ih _ s h with h1 | h1
    · exact Or.inl (by simp [h1])
    · rcases mem_alKeys_alUpd natLt e.1 id [] zi s h1 with h2 | h2
      · exact Or.inl (by simp [h2])
      · exact Or.inr h2

theorem ziListKeys (cfg : Cfg) (delta : SnapshotDelta) (merged : MergeState)
    (s : Nat) (h : s ∈ alKeys (ziList cfg delta merged)) :
    s ∈ cfg.snapMap.map (fun e => e.1) ∨
    (∃ entry ∈ delta, entry.1.1 = s) ∨
    s = (cfg.snapMap.headD (0, [])).1 ∨
    s ∈ alKeys merged.zeroIntervals := by
  unfold ziList at h
  rcases seedKeys cfg cfg.snapMap _ s h with h1 | h1
  · exact Or.inl h1
  · rcases collectKeys_fold cfg delta _ s h1 with h2 | h2 | h2
    · exact Or.inr (Or.inl h2)
    · exact Or.inr (Or.inr (Or.inl h2))
    · exact Or.inr (Or.inr (Or.inr h2))

theorem processZeroEntry_writeOps_keys (cfg : Cfg)
    (dataIv : List (Nat × IntervalSet)) (firstKey : Nat) (st : ZeroState)
    (entry : Nat × IntervalSet) (s : Nat)
    (h : s ∈ alKeys (processZeroEntry cfg dataIv firstKey st entry).writeOps) :
    s = entry.1 ∨ s ∈ alKeys st.writeOps := by
  by_cases h1 : cfg.mayExist (primaryDst cfg entry.1) = false ∧ 0 < st.prevEndSize
  · simp only [processZeroEntry, if_pos h1] at h
    exact mem_alKeys_alUpd natLt entry.1 _ [] st.writeOps s h
  · simp only [processZeroEntry, if_neg h1, zeroWriteOps1] at h
    split_ifs at h
    · exact Or.inr h
    · exact mem_alKeys_alUpd natLt entry.1 _ [] st.writeOps s h

theorem zeroFold_writeOps_keys (cfg : Cfg) (dataIv : List (Nat × IntervalSet))
    (firstKey : Nat) (zl : List (Nat × IntervalSet)) :
    ∀ (st : ZeroState) (s : Nat),
      s ∈ alKeys ((zl.foldl (processZeroEntry cfg dataIv firstKey) st)).writeOps →
      (∃ e ∈ zl, e.1 = s) ∨ s ∈ alKeys st.writeOps := by
  induction zl with
  | nil => intro st s h; exact Or.inr h
  | cons e rest ih =>
    intro st s h
    rw [List.foldl_cons] at h
    rcases ih _ s h with h1 | h1
    · rcases h1 with ⟨e2, he2, hk⟩
      exact Or.inl ⟨e2, by simp [he2], hk⟩
    · rcases processZeroEntry_writeOps_keys cfg dataIv firstKey st e s h1
        with h2 | h2
      · exact Or.inl ⟨e, by simp, h2.symm⟩
      · exact Or.inr h2

/-- C8 (amended): for every source snapshot id `s ≠ 0` appearing as a key
of the final write plan, `SnapMap[s]` exists and is non-empty — provided
the snapshot delta only references non-zero write snaps present in the
snap map (the stated SnapMap invariant) and the snap map's values are
non-empty (the constructor's precondition).  The head key `0` is exempt:
initial-key data is merged under source snap 0, which the write executor
handles without a snap-map entry. -/
theorem c8_writePlan_keys (cfg : Cfg) (delta : SnapshotDelta)
    (oracle : ReadOracle) (s : Nat) (hs0 : s ≠ 0)
    (hdelta : ∀ entry ∈ delta, entry.1.1 ≠ 0 →
      entry.1.1 ∈ cfg.snapMap.map (fun e => e.1))
    (hvals : ∀ e ∈ cfg.snapMap, e.2 ≠ [])
    (hmem : (alGet s (planObjectCopy cfg delta oracle).writeOps).isSome = true) :
    ∃ ds, alGet s cfg.snapMap = some ds ∧ ds ≠ [] := by
  have hkeys : s ∈ cfg.snapMap.map (fun e => e.1) := by
    have hmem' : s ∈ alKeys (planObjectCopy cfg delta oracle).writeOps :=
      alKeys_of_alGet_isSome s _ hmem
    have hmem2 : s ∈ alKeys (((ziList cfg delta (mergeWriteOps cfg oracle
        (computeReadOps cfg delta).readOps)).foldl
        (processZeroEntry cfg (mergeWriteOps cfg oracle
          (computeReadOps cfg delta).readOps).dataIntervals
          ((ziList cfg delta (mergeWriteOps cfg oracle
            (computeReadOps cfg delta).readOps)).headD (0, [])).1)
        (zeroInit cfg (mergeWriteOps cfg oracle
          (computeReadOps cfg delta).readOps))).writeOps) := by
      simpa [planObjectCopy, computeZeroOps] using hmem'
    have hhead : ∀ hh : s = (cfg.snapMap.headD (0, [])).1,
        s ∈ cfg.snapMap.map (fun e => e.1) := by
      intro hh
      cases hm : cfg.snapMap with
      | nil => rw [hm] at hh; simp at hh; exact absurd hh hs0
      | cons fe restMap =>
        rw [hm] at hh
        simp only [List.headD_cons] at hh
        rw [hh]
        simp
    have hro : ∀ k : Key, k ∈ alKeys (computeReadOps cfg delta).readOps →
        k.1 = s → s ∈ cfg.snapMap.map (fun e => e.1) := by
      intro k hk hks
      rcases readKeys_sub cfg delta k hk with ⟨entry, hentry, hke⟩ | ⟨ds, rest, hmap, _⟩
      · rw [← hks]
        rw [← hke]
        exact hdelta entry hentry (by rw [hke, hks]; exact hs0)
      · rw [hmap, ← hks]
        simp
    rcases zeroFold_writeOps_keys cfg _ _ _ _ s hmem2 with ⟨e, he, hk⟩ | hinit
    · -- a zero-interval key
      rcases ziListKeys cfg delta _ s (by rw [← hk]; exact mem_alKeys_of_mem e _ he)
        with h1 | h1 | h1 | h1
      · exact h1
      · rcases h1 with ⟨entry, hentry, hke⟩
        rw [← hke]
        exact hdelta entry hentry (by rw [hke]; exact hs0)
      · exact hhead h1
      · -- merge residual zero-interval keys come from read-op keys
        rcases mergeKeys_zeroIntervals cfg oracle _ _ s h1 with ⟨e2, he2, hk2⟩ | hz
        · exact hro e2.1 (mem_alKeys_of_mem e2 _ he2) hk2
        · simp [alKeys] at hz
    · -- a merged write key comes from a read-op key
      rcases mergeKeys_writeOps cfg oracle _ _ s
        (by simpa [zeroInit] using hinit) with ⟨e2, he2, hk2⟩ | hz
      · exact hro e2.1 (mem_alKeys_of_mem e2 _ he2) hk2
      · simp [alKeys] at hz
  rcases List.mem_map.mp hkeys with ⟨e, he, hk⟩
  have hsome : (alGet s cfg.snapMap).isSome = true :=
    alGet_isSome_of_mem_keys s _ (by rw [← hk]; exact mem_alKeys_of_mem e _ he)
  rcases Option.isSome_iff_exists.mp hsome with ⟨ds, hds⟩
  refine ⟨ds, hds, ?_⟩
  exact hvals (s, ds) (alGet_mem s _ ds hds)

/-- Counterexample to C8 as stated: initial-key data is merged under the
head key 0, which appears in the write plan although `SnapMap[0]` does not
exist. -/
theorem c8_counterexample :
    (alGet 0 (planObjectCopy cxCfg8 cxDelta8 cxOracle8).writeOps).isSome
      = true ∧
    alGet 0 cxCfg8.snapMap = none :=
  ⟨by decide, by decide⟩

/-- Witness for C8: data written before snap 10 lands in the batch keyed
10, and `SnapMap[10] = [110]` is non-empty. -/
theorem c8_writePlan_keys_witness :
    ∃ ds, alGet 10 cxCfg8.snapMap = some ds ∧ ds ≠ [] :=
  c8_writePlan_keys cxCfg8 wDelta8 cxOracle8 10 (by decide) (by decide)
    (by decide) (by decide)

/-- Witness for C9 at the snap-20 trace entry of the `cxCfg9` run. -/
theorem c9_object_state_witness :
    alGet wTrace9.snap (planObjectCopy cxCfg9 cxDelta9 cxOracle9).statePlan =
      wTrace9.stateSet ∧
    (wTrace9.stateSet.isSome = true ↔
      (0 < wTrace9.endSizeFinal ∨ wTrace9.hideLive = true)) ∧
    (wTrace9.stateSet = some ObjectMapState.OBJECT_EXISTS_CLEAN ↔
      ((0 < wTrace9.endSizeFinal ∨ wTrace9.hideLive = true) ∧
        cxCfg9.fastDiff = true ∧
        wTrace9.endSizeFinal = wTrace9.prevSeeded ∧
        wTrace9.hasBatchAfter = false)) ∧
    (wTrace9.stateSet = some ObjectMapState.OBJECT_EXISTS ↔
      ((0 < wTrace9.endSizeFinal ∨ wTrace9.hideLive = true) ∧
        ¬(cxCfg9.fastDiff = true ∧
          wTrace9.endSizeFinal = wTrace9.prevSeeded ∧
          wTrace9.hasBatchAfter = false))) :=
  c9_object_state cxCfg9 cxDelta9 cxOracle9 wTrace9 (by decide) (by decide)

/-! ## Claim C3: data preservation -/

theorem mem_alUpd_cases {κ α : Type} [DecidableEq κ] (lt : κ → κ → Bool)
    (k : κ) (f : α → α) (d : α) (l : List (κ × α)) :
    ∀ e ∈ alUpd lt k f d l,
      e ∈ l ∨ ∃ v, e = (k, f v) ∧ ((k, v) ∈ l ∨ v = d) := by
  induction l with
  | nil =>
    intro e he
    simp only [alUpd, List.mem_singleton] at he
    exact Or.inr ⟨d, he, Or.inr rfl⟩
  | cons e0 rest ih =>
    intro e he
    simp only [alUpd] at he
    by_cases hk : k = e0.1
    · rw [if_pos hk] at he
      rcases List.mem_cons.mp he with h | h
      · refine Or.inr ⟨e0.2, by rw [h, hk], Or.inl ?_⟩
        rw [hk]
        exact (by simp : (e0.1, e0.2) ∈ e0 :: rest)
      · exact Or.inl (List.mem_cons_of_mem _ h)
    · rw [if_neg hk] at he
      by_cases hlt : lt k e0.1 = true
      · rw [if_pos hlt] at he
        rcases List.mem_cons.mp he with h | h
        · exact Or.inr ⟨d, h, Or.inr rfl⟩
        · exact Or.inl h
      · rw [if_neg hlt] at he
        rcases List.mem_cons.mp he with h | h
        · exact Or.inl (by rw [h]; simp)
        · rcases ih e h with h1 | ⟨v, hv, h2⟩
          · exact Or.inl (List.mem_cons_of_mem _ h1)
          · rcases h2 with h2 | h2
            · exact Or.inr ⟨v, hv, Or.inl (List.mem_cons_of_mem _ h2)⟩
            · exact Or.inr ⟨v, hv, Or.inr h2⟩

theorem mem_alUpd_covers {κ α : Type} [DecidableEq κ] (lt : κ → κ → Bool)
    (k : κ) (f : α → α) (d : α) (l : List (κ × α)) :
    ∀ e ∈ l, e ∈ alUpd lt k f d l ∨
      (e.1 = k ∧ (k, f e.2) ∈ alUpd lt k f d l) := by
  induction l with
  | nil => intro e he; simp at he
  | cons e0 rest ih =>
    intro e he
    simp only [alUpd]
    by_cases hk : k = e0.1
    · rw [if_pos hk]
      rcases List.mem_cons.mp he with h | h
      · refine Or.inr ⟨by rw [h, hk], ?_⟩
        rw [hk, h]
        exact (by simp : (e0.1, f e0.2) ∈ (e0.1, f e0.2) :: rest)
      · exact Or.inl (List.mem_cons_of_mem _ h)
    · rw [if_neg hk]
      by_cases hlt : lt k e0.1 = true
      · rw [if_pos hlt]
        exact Or.inl (List.mem_cons_of_mem _ he)
      · rw [if_neg hlt]
        rcases List.mem_cons.mp he with h | h
        · exact Or.inl (by rw [h]; simp)
        · rcases ih e h with h1 | ⟨h1, h2⟩
          · exact Or.inl (List.mem_cons_of_mem _ h1)
          · exact Or.inr ⟨h1, List.mem_cons_of_mem _ h2⟩

theorem alGet_of_mem_sorted {κ α : Type} [DecidableEq κ] (lt : κ → κ → Bool)
    (hne : ∀ a b : κ, lt a b = true → a ≠ b)
    (l : List (κ × α)) (hs : AlSorted lt l) :
    ∀ e ∈ l, alGet e.1 l = some e.2 := by
  induction l with
  | nil => intro e he; simp at he
  | cons e0 rest ih =>
    intro e he
    rcases List.pairwise_cons.mp hs with ⟨hhead, htail⟩
    rcases List.mem_cons.mp he with h | h
    · rw [h]
      simp [alGet]
    · have hne0 : ¬(e0.1 = e.1) := hne e0.1 e.1 (hhead e h)
      simp only [alGet, if_neg hne0]
      exact ih htail e h

theorem opsWriteSet_cons (cfg : Cfg) (op : WriteOp) (ops : List WriteOp) :
    opsWriteSet cfg (op :: ops) =
      { x | ∃ off len, op = WriteOp.write off len ∧
        cfg.base + off ≤ x ∧ x < cfg.base + off + len } ∪ opsWriteSet cfg ops := by
  ext x
  simp only [opsWriteSet, Set.mem_setOf_eq, Set.mem_union, List.mem_cons]
  constructor
  · rintro ⟨o, (rfl | ho), off, len, heq, h1, h2⟩
    · exact Or.inl ⟨off, len, heq, h1, h2⟩
    · exact Or.inr ⟨o, ho, off, len, heq, h1, h2⟩
  · rintro (⟨off, len, heq, h1, h2⟩ | ⟨o, ho, off, len, heq, h1, h2⟩)
    · exact ⟨op, Or.inl rfl, off, len, heq, h1, h2⟩
    · exact ⟨o, Or.inr ho, off, len, heq, h1, h2⟩

theorem opsWriteSet_no_write (cfg : Cfg) (ops : List WriteOp)
    (h : ∀ op ∈ ops, op.isWrite = false) : opsWriteSet cfg ops = ∅ := by
  refine Set.eq_empty_iff_forall_not_mem.mpr ?_
  rintro x ⟨op, hop, off, len, heq, _, _⟩
  have := h op hop
  rw [heq] at this
  simp [WriteOp.isWrite] at this

theorem imageWriteSet_alUpd_append (cfg : Cfg) (k : Nat)
    (newOps : List WriteOp) (l : List (Nat × List WriteOp)) :
    imageWriteSet cfg
        (alUpd natLt k (fun ops => ops ++ newOps) [] l) =
      imageWriteSet cfg l ∪ opsWriteSet cfg newOps := by
  ext x
  simp only [Set.mem_union]
  constructor
  · rintro ⟨entry, hentry, op, hop, off, len, heq, h1, h2⟩
    rcases mem_alUpd_cases natLt k (fun ops => ops ++ newOps) [] l entry hentry
      with h | ⟨v, hv, hvl⟩
    · exact Or.inl ⟨entry, h, op, hop, off, len, heq, h1, h2⟩
    · rw [hv] at hop
      simp only at hop
      rcases List.mem_append.mp hop with hop1 | hop1
      · rcases hvl with hvl | hvl
        · exact Or.inl ⟨(k, v), hvl, op, hop1, off, len, heq, h1, h2⟩
        · rw [hvl] at hop1
          simp at hop1
      · exact Or.inr ⟨op, hop1, off, len, heq, h1, h2⟩
  · rintro (⟨entry, hentry, op, hop, off, len, heq, h1, h2⟩ |
      ⟨op, hop, off, len, heq, h1, h2⟩)
    · rcases mem_alUpd_covers natLt k (fun ops => ops ++ newOps) [] l entry hentry
        with h | ⟨hk, h⟩
      · exact ⟨entry, h, op, hop, off, len, heq, h1, h2⟩
      · exact ⟨(k, entry.2 ++ newOps), h, op, List.mem_append_left _ hop,
          off, len, heq, h1, h2⟩
    · have hcov : ∃ entry2 ∈ alUpd natLt k (fun ops => ops ++ newOps) [] l,
          op ∈ entry2.2 := by
        induction l with
        | nil => exact ⟨(k, [] ++ newOps), by simp [alUpd], by simpa using hop⟩
        | cons e0 rest ih =>
          simp only [alUpd]
          by_cases hk : k = e0.1
          · rw [if_pos hk]
            exact ⟨(e0.1, e0.2 ++ newOps), by simp,
              List.mem_append_right _ hop⟩
          · rw [if_neg hk]
            by_cases hlt : natLt k e0.1 = true
            · rw [if_pos hlt]
              exact ⟨(k, [] ++ newOps), by simp, by simpa using hop⟩
            · rw [if_neg hlt]
              rcases ih with ⟨entry2, hentry2, hop2⟩
              exact ⟨entry2, List.mem_cons_of_mem _ hentry2, hop2⟩
      rcases hcov with ⟨entry2, hentry2, hop2⟩
      exact ⟨entry2, hentry2, op, hop2, off, len, heq, h1, h2⟩

theorem zeroExtentStep_no_write (hp : Bool) (prev es : Nat) (oe : Extent) :
    ∀ op ∈ (zeroExtentStep hp prev es oe).1, op.isWrite = false := by
  intro op hop
  unfold zeroExtentStep at hop
  split_ifs at hop <;> simp_all [WriteOp.isWrite]

theorem emitZeroOps_no_write (cfg : Cfg) (hp : Bool) (prev : Nat)
    (zi : IntervalSet) (es0 : Nat) :
    ∀ op ∈ (emitZeroOps cfg hp prev zi es0).1, op.isWrite = false := by
  suffices h : ∀ (zi : IntervalSet) (acc : List WriteOp × Nat),
      (∀ op ∈ acc.1, op.isWrite = false) →
      ∀ op ∈ (zi.foldl (fun acc z =>
        (fileToExtents cfg z.1 z.2).foldl (fun acc oe =>
          (acc.1 ++ (zeroExtentStep hp prev acc.2 oe).1,
            (zeroExtentStep hp prev acc.2 oe).2)) acc) acc).1,
        op.isWrite = false by
    intro op hop
    exact h zi ([], es0) (by simp) op hop
  intro zi
  induction zi with
  | nil => intro acc hacc op hop; exact hacc op hop
  | cons z rest ih =>
    intro acc hacc op hop
    rw [List.foldl_cons] at hop
    refine ih _ ?_ op hop
    simp only [fileToExtents, List.foldl_cons, List.foldl_nil]
    intro op2 hop2
    rcases List.mem_append.mp hop2 with h | h
    · exact hacc op2 h
    · exact zeroExtentStep_no_write hp prev acc.2 _ op2 h

theorem processZeroEntry_imageWriteSet (cfg : Cfg)
    (dataIv : List (Nat × IntervalSet)) (firstKey : Nat) (st : ZeroState)
    (entry : Nat × IntervalSet) :
    imageWriteSet cfg (processZeroEntry cfg dataIv firstKey st entry).writeOps =
      imageWriteSet cfg st.writeOps := by
  by_cases h1 : cfg.mayExist (primaryDst cfg entry.1) = false ∧ 0 < st.prevEndSize
  · simp only [processZeroEntry, if_pos h1]
    rw [imageWriteSet_alUpd_append, opsWriteSet_no_write]
    · simp
    · intro op hop
      simp only [List.mem_singleton] at hop
      rw [hop]
      rfl
  · simp only [processZeroEntry, if_neg h1, zeroWriteOps1]
    split_ifs with h2
    · rfl
    · rw [imageWriteSet_alUpd_append, opsWriteSet_no_write]
      · simp
      · exact emitZeroOps_no_write cfg _ _ _ _
  
theorem zeroFold_imageWriteSet (cfg : Cfg) (dataIv : List (Nat × IntervalSet))
    (firstKey : Nat) (zl : List (Nat × IntervalSet)) :
    ∀ st : ZeroState,
      imageWriteSet cfg
          ((zl.foldl (processZeroEntry cfg dataIv firstKey) st)).writeOps =
        imageWriteSet cfg st.writeOps := by
  induction zl with
  | nil => intro st; rfl
  | cons e rest ih =>
    intro st
    rw [List.foldl_cons, ih, processZeroEntry_imageWriteSet]

theorem imageWriteSet_nil (cfg : Cfg) :
    imageWriteSet cfg ([] : List (Nat × List WriteOp)) = ∅ := by
  refine Set.eq_empty_iff_forall_not_mem.mpr ?_
  rintro x ⟨entry, hentry, _⟩
  simp at hentry

theorem readSet_nil : readSet [] = ∅ := by
  refine Set.eq_empty_iff_forall_not_mem.mpr ?_
  rintro x ⟨e, he, _⟩
  simp at he

theorem readSet_cons (e : Key × IntervalSet) (ros : List (Key × IntervalSet)) :
    readSet (e :: ros) = toSet e.2 ∪ readSet ros := by
  ext x
  simp only [readSet, Set.mem_setOf_eq, Set.mem_union, List.mem_cons]
  constructor
  · rintro ⟨p, (rfl | hp), hx⟩
    · exact Or.inl hx
    · exact Or.inr ⟨p, hp, hx⟩
  · rintro (hx | ⟨p, hp, hx⟩)
    · exact ⟨e, Or.inl rfl, hx⟩
    · exact ⟨p, Or.inr hp, hx⟩

theorem effExtentMap_eq (oracle : ReadOracle) (e : Key × IntervalSet)
    (h : oracle.extentMap e.1 = e.2) : effExtentMap oracle e = e.2 := by
  unfold effExtentMap
  split_ifs with hiv
  · exact hiv.symm
  · exact h

theorem opsWriteSet_newWrites (cfg : Cfg) (em : List Extent)
    (hb : ∀ p ∈ em, cfg.base ≤ p.1) :
    opsWriteSet cfg (em.foldr (fun e acc =>
      (fileToExtents cfg e.1 e.2).map (fun oe => WriteOp.write oe.1 oe.2)
        ++ acc) []) = toSet em := by
  induction em with
  | nil =>
    rw [toSet_nil]
    refine Set.eq_empty_iff_forall_not_mem.mpr ?_
    rintro x ⟨op, hop, _⟩
    simp at hop
  | cons e rest ih =>
    rw [List.foldr_cons, toSet_cons]
    have hbe : cfg.base ≤ e.1 := hb e (by simp)
    rw [show (fileToExtents cfg e.1 e.2).map (fun oe => WriteOp.write oe.1 oe.2)
        ++ (rest.foldr (fun p acc => (fileToExtents cfg p.1 p.2).map
          (fun oe => WriteOp.write oe.1 oe.2) ++ acc) []) =
        WriteOp.write (e.1 - cfg.base) e.2 ::
          rest.foldr (fun p acc => (fileToExtents cfg p.1 p.2).map
            (fun oe => WriteOp.write oe.1 oe.2) ++ acc) [] from rfl]
    rw [opsWriteSet_cons, ih fun p hp => hb p (by simp [hp])]
    have hone : { x | ∃ off len,
        WriteOp.write (e.1 - cfg.base) e.2 = WriteOp.write off len ∧
        cfg.base + off ≤ x ∧ x < cfg.base + off + len } =
        Set.Ico e.1 (e.1 + e.2) := by
      ext x
      simp only [Set.mem_setOf_eq, WriteOp.write.injEq, Set.mem_Ico]
      constructor
      · rintro ⟨off, len, ⟨h1, h2⟩, h3, h4⟩
        omega
      · intro h
        exact ⟨e.1 - cfg.base, e.2, ⟨rfl, rfl⟩, by omega, by omega⟩
    rw [hone]

theorem merge_imageWriteSet (cfg : Cfg) (oracle : ReadOracle)
    (ros : List (Key × IntervalSet))
    (horacle : ∀ e ∈ ros, oracle.extentMap e.1 = e.2)
    (hb : ∀ e ∈ ros, ∀ p ∈ e.2, cfg.base ≤ p.1) :
    ∀ st : MergeState,
      imageWriteSet cfg (ros.foldl (mergeEntry cfg oracle) st).writeOps =
        imageWriteSet cfg st.writeOps ∪ readSet ros := by
  induction ros with
  | nil =>
    intro st
    rw [readSet_nil]
    simp
  | cons e rest ih =>
    intro st
    rw [List.foldl_cons, ih (fun e2 he2 => horacle e2 (by simp [he2]))
      (fun e2 he2 => hb e2 (by simp [he2]))]
    have hstep : imageWriteSet cfg (mergeEntry cfg oracle st e).writeOps =
        imageWriteSet cfg st.writeOps ∪ toSet e.2 := by
      have hem : effExtentMap oracle e = e.2 :=
        effExtentMap_eq oracle e (horacle e (by simp))
      have hnw : opsWriteSet cfg ((effExtentMap oracle e).foldr
          (fun p acc => (fileToExtents cfg p.1 p.2).map
            (fun oe => WriteOp.write oe.1 oe.2) ++ acc) []) = toSet e.2 := by
        rw [hem]
        exact opsWriteSet_newWrites cfg e.2 (hb e (by simp))
      simp only [mergeEntry]
      split_ifs with h2
      · rw [h2] at hnw
        have hempty : toSet e.2 = ∅ := by
          rw [← hnw]
          refine Set.eq_empty_iff_forall_not_mem.mpr ?_
          rintro x ⟨op, hop, _⟩
          simp at hop
        rw [hempty]
        simp
      · rw [imageWriteSet_alUpd_append, hnw]
    rw [hstep, readSet_cons]
    ext x
    simp only [Set.mem_union]
    tauto

theorem keyUpd_sorted {α : Type} (k : Key) (f : α → α) (d : α)
    (l : List (Key × α)) (hs : AlSorted keyLt l) :
    AlSorted keyLt (alUpd keyLt k f d l) :=
  alUpd_sorted keyLt (fun a b c h1 h2 => keyLt_trans h1 h2)
    (fun a b h => keyLt_total h) k f d l hs

theorem extsDataSet_nil : extsDataSet [] = ∅ := by
  refine Set.eq_empty_iff_forall_not_mem.mpr ?_
  rintro x ⟨e, he, _⟩
  simp at he

theorem extsDataSet_cons (iv : DeltaExtent) (rest : List DeltaExtent) :
    extsDataSet (iv :: rest) =
      (if iv.state = ExtentState.data then Set.Ico iv.off (iv.off + iv.len)
        else ∅) ∪ extsDataSet rest := by
  ext x
  simp only [extsDataSet, Set.mem_setOf_eq, Set.mem_union, List.mem_cons]
  constructor
  · rintro ⟨e, (rfl | he), hst, h1, h2⟩
    · rw [if_pos hst]
      exact Or.inl ⟨h1, h2⟩
    · exact Or.inr ⟨e, he, hst, h1, h2⟩
  · intro h
    rcases h with h | ⟨e, he, hst, h1, h2⟩
    · by_cases hd : iv.state = ExtentState.data
      · rw [if_pos hd] at h
        exact ⟨iv, Or.inl rfl, hd, h.1, h.2⟩
      · rw [if_neg hd] at h
        exact absurd h (by simp)
    · exact ⟨e, Or.inr he, hst, h1, h2⟩

theorem deltaDataSetAt_nil (k : Key) : deltaDataSetAt [] k = ∅ := by
  refine Set.eq_empty_iff_forall_not_mem.mpr ?_
  rintro x ⟨e, he, _⟩
  simp at he

theorem deltaDataSetAt_cons (entry : Key × List DeltaExtent)
    (rest : SnapshotDelta) (k : Key) :
    deltaDataSetAt (entry :: rest) k =
      (if k = entry.1 then extsDataSet entry.2 else ∅) ∪
        deltaDataSetAt rest k := by
  ext x
  simp only [deltaDataSetAt, Set.mem_setOf_eq, Set.mem_union, List.mem_cons]
  constructor
  · rintro ⟨e, (rfl | he), hk, hx⟩
    · rw [if_pos hk.symm]
      exact Or.inl hx
    · exact Or.inr ⟨e, he, hk, hx⟩
  · intro h
    rcases h with h | ⟨e, he, hk, hx⟩
    · by_cases hk : k = entry.1
      · rw [if_pos hk] at h
        exact ⟨entry, Or.inl rfl, hk.symm, h⟩
      · rw [if_neg hk] at h
        exact absurd h (by simp)
    · exact ⟨e, Or.inr he, hk, hx⟩

theorem processDeltaExtent_sorted (rfp : Bool) (key : Key) (st : ReadState)
    (iv : DeltaExtent) (hs : AlSorted keyLt st.readOps) :
    AlSorted keyLt (processDeltaExtent rfp key st iv).readOps := by
  cases hstate : iv.state <;> simp only [processDeltaExtent, hstate]
  · split_ifs <;> exact hs
  · exact hs
  · exact keyUpd_sorted _ _ _ _ hs

theorem extentFold_sorted (rfp : Bool) (key : Key) (ivs : List DeltaExtent) :
    ∀ st : ReadState, AlSorted keyLt st.readOps →
      AlSorted keyLt (ivs.foldl (processDeltaExtent rfp key) st).readOps := by
  induction ivs with
  | nil => intro st hs; exact hs
  | cons iv rest ih =>
    intro st hs
    rw [List.foldl_cons]
    exact ih _ (processDeltaExtent_sorted rfp key st iv hs)

theorem processDeltaEntry_sorted (cfg : Cfg) (st : ReadState)
    (entry : Key × List DeltaExtent) (hs : AlSorted keyLt st.readOps) :
    AlSorted keyLt (processDeltaEntry cfg st entry).readOps := by
  unfold processDeltaEntry
  split_ifs with h
  · exact hs
  · exact extentFold_sorted (readFromParent cfg) entry.1 entry.2 st hs

theorem deltaFold_sorted (cfg : Cfg) (delta : SnapshotDelta) :
    ∀ st : ReadState, AlSorted keyLt st.readOps →
      AlSorted keyLt (delta.foldl (processDeltaEntry cfg) st).readOps := by
  induction delta with
  | nil => intro st hs; exact hs
  | cons entry rest ih =>
    intro st hs
    rw [List.foldl_cons]
    exact ih _ (processDeltaEntry_sorted cfg st entry hs)

theorem extentFold_toSet (rfp : Bool) (key : Key) (ivs : List DeltaExtent) :
    ∀ (st : ReadState) (k : Key), AlSorted keyLt st.readOps →
      toSetO (alGet k (ivs.foldl (processDeltaExtent rfp key) st).readOps) =
      toSetO (alGet k st.readOps) ∪
        (if k = key then extsDataSet ivs else ∅) := by
  induction ivs with
  | nil =>
    intro st k hs
    rw [extsDataSet_nil]
    split_ifs <;> simp
  | cons iv rest ih =>
    intro st k hs
    rw [List.foldl_cons,
      ih _ k (processDeltaExtent_sorted rfp key st iv hs)]
    have hstep : toSetO (alGet k (processDeltaExtent rfp key st iv).readOps) =
        toSetO (alGet k st.readOps) ∪
          (if k = key ∧ iv.state = ExtentState.data then
            Set.Ico iv.off (iv.off + iv.len) else ∅) := by
      cases hstate : iv.state <;> simp only [processDeltaExtent, hstate]
      · have hro : (if key = ((0 : Nat), (0 : Nat)) ∧ rfp = true then
            { st with dne := unionInsert st.dne iv.off iv.len }
            else st).readOps = st.readOps := by
          split_ifs <;> rfl
        rw [hro,
          if_neg (show ¬(k = key ∧ ExtentState.dne = ExtentState.data) from
            fun hc => ExtentState.noConfusion hc.2)]
        simp
      · simp
      · by_cases hk : k = key
        · subst hk
          rw [alGet_alUpd_self keyLt (fun a b h => keyLt_ne h)
            (fun a b c h1 h2 => keyLt_trans h1 h2) _ _ _ _ hs]
          show toSet (unionInsert ((alGet k st.readOps).getD []) iv.off iv.len)
            = _
          rw [toSet_unionInsert, if_pos ⟨rfl, trivial⟩]
          rfl
        · rw [alGet_alUpd_ne keyLt key k hk _ _ _,
            if_neg (fun hc => hk hc.1)]
          simp
    rw [hstep]
    have hsplit : (if k = key then extsDataSet (iv :: rest) else ∅) =
        (if k = key ∧ iv.state = ExtentState.data then
          Set.Ico iv.off (iv.off + iv.len) else ∅) ∪
        (if k = key then extsDataSet rest else ∅) := by
      by_cases hk : k = key
      · rw [if_pos hk, if_pos hk, extsDataSet_cons]
        by_cases hd : iv.state = ExtentState.data
        · rw [if_pos hd, if_pos ⟨hk, hd⟩]
        · rw [if_neg hd, if_neg (fun hc => hd hc.2)]
      · rw [if_neg hk, if_neg hk, if_neg (fun hc => hk hc.1)]
        simp
    rw [hsplit]
    ext x
    simp only [Set.mem_union]
    tauto

theorem deltaFold_toSet (cfg : Cfg) (delta : SnapshotDelta)
    (hskip : ∀ entry ∈ delta, keySkipped cfg entry.1 = false) :
    ∀ (st : ReadState) (k : Key), AlSorted keyLt st.readOps →
      toSetO (alGet k (delta.foldl (processDeltaEntry cfg) st).readOps) =
      toSetO (alGet k st.readOps) ∪ deltaDataSetAt delta k := by
  induction delta with
  | nil =>
    intro st k hs
    rw [deltaDataSetAt_nil]
    simp
  | cons entry rest ih =>
    intro st k hs
    rw [List.foldl_cons,
      ih (fun e he => hskip e (by simp [he])) _ k
        (processDeltaEntry_sorted cfg st entry hs)]
    have hsk := hskip entry (by simp)
    have hstep : toSetO (alGet k (processDeltaEntry cfg st entry).readOps) =
        toSetO (alGet k st.readOps) ∪
          (if k = entry.1 then extsDataSet entry.2 else ∅) := by
      unfold processDeltaEntry
      rw [if_neg (by rw [hsk]; exact Bool.false_ne_true)]
      exact extentFold_toSet (readFromParent cfg) entry.1 entry.2 st k hs
    rw [hstep, deltaDataSetAt_cons]
    ext x
    simp only [Set.mem_union]
    tauto

theorem processDeltaExtent_dne (rfp : Bool) (key : Key) (st : ReadState)
    (iv : DeltaExtent)
    (h : (key = ((0 : Nat), (0 : Nat)) → iv.state ≠ ExtentState.dne) ∨
      rfp = false) :
    (processDeltaExtent rfp key st iv).dne = st.dne := by
  cases hstate : iv.state <;> simp only [processDeltaExtent, hstate]
  rw [if_neg]
  rintro ⟨h1, h2⟩
  rcases h with h | h
  · exact h h1 hstate
  · rw [h] at h2
    exact Bool.false_ne_true h2

theorem extentFold_dne (rfp : Bool) (key : Key) (ivs : List DeltaExtent)
    (h : (key = ((0 : Nat), (0 : Nat)) →
      ∀ iv ∈ ivs, iv.state ≠ ExtentState.dne) ∨ rfp = false) :
    ∀ st : ReadState,
      (ivs.foldl (processDeltaExtent rfp key) st).dne = st.dne := by
  induction ivs with
  | nil => intro st; rfl
  | cons iv rest ih =>
    intro st
    rw [List.foldl_cons]
    have hrest : (key = ((0 : Nat), (0 : Nat)) →
        ∀ iv2 ∈ rest, iv2.state ≠ ExtentState.dne) ∨ rfp = false := by
      rcases h with h | h
      · exact Or.inl fun hk iv2 hiv2 => h hk iv2 (by simp [hiv2])
      · exact Or.inr h
    rw [ih hrest]
    refine processDeltaExtent_dne rfp key st iv ?_
    rcases h with h | h
    · exact Or.inl fun hk => h hk iv (by simp)
    · exact Or.inr h

theorem deltaFold_dne (cfg : Cfg) (delta : SnapshotDelta)
    (h : (∀ entry ∈ delta, entry.1 = ((0 : Nat), (0 : Nat)) →
        ∀ iv ∈ entry.2, iv.state ≠ ExtentState.dne) ∨
      readFromParent cfg = false) :
    ∀ st : ReadState,
      (delta.foldl (processDeltaEntry cfg) st).dne = st.dne := by
  induction delta with
  | nil => intro st; rfl
  | cons entry rest ih =>
    intro st
    rw [List.foldl_cons]
    have hrest : (∀ e ∈ rest, e.1 = ((0 : Nat), (0 : Nat)) →
        ∀ iv ∈ e.2, iv.state ≠ ExtentState.dne) ∨
        readFromParent cfg = false := by
      rcases h with h | h
      · exact Or.inl fun e he => h e (by simp [he])
      · exact Or.inr h
    rw [ih hrest]
    unfold processDeltaEntry
    split_ifs with hsk
    · rfl
    · refine extentFold_dne (readFromParent cfg) entry.1 entry.2 ?_ st
      rcases h with h | h
      · exact Or.inl (h entry (by simp))
      · exact Or.inr h

theorem processDeltaExtent_lb (rfp : Bool) (key : Key) (st : ReadState)
    (iv : DeltaExtent) (b : Nat)
    (hst : ∀ e ∈ st.readOps, ∀ p ∈ e.2, b ≤ p.1) (hoff : b ≤ iv.off) :
    ∀ e ∈ (processDeltaExtent rfp key st iv).readOps, ∀ p ∈ e.2, b ≤ p.1 := by
  cases hstate : iv.state <;> simp only [processDeltaExtent, hstate]
  · split_ifs <;> exact hst
  · exact hst
  · intro e he
    rcases mem_alUpd_cases keyLt key _ [] st.readOps e he with h | ⟨v, hv, hvl⟩
    · exact hst e h
    · rw [hv]
      intro p hp
      refine unionInsert_lb v iv.off iv.len b ?_ hoff p hp
      rcases hvl with hvl | hvl
      · exact hst (key, v) hvl
      · rw [hvl]
        intro p2 hp2
        simp at hp2

theorem extentFold_lb (rfp : Bool) (key : Key) (ivs : List DeltaExtent)
    (b : Nat) (hivs : ∀ iv ∈ ivs, b ≤ iv.off) :
    ∀ st : ReadState, (∀ e ∈ st.readOps, ∀ p ∈ e.2, b ≤ p.1) →
      ∀ e ∈ (ivs.foldl (processDeltaExtent rfp key) st).readOps,
        ∀ p ∈ e.2, b ≤ p.1 := by
  induction ivs with
  | nil => intro st hst; exact hst
  | cons iv rest ih =>
    intro st hst
    rw [List.foldl_cons]
    exact ih (fun iv2 hiv2 => hivs iv2 (by simp [hiv2])) _
      (processDeltaExtent_lb rfp key st iv b hst (hivs iv (by simp)))

theorem deltaFold_lb (cfg : Cfg) (delta : SnapshotDelta) (b : Nat)
    (hivs : ∀ entry ∈ delta, ∀ iv ∈ entry.2, b ≤ iv.off) :
    ∀ st : ReadState, (∀ e ∈ st.readOps, ∀ p ∈ e.2, b ≤ p.1) →
      ∀ e ∈ (delta.foldl (processDeltaEntry cfg) st).readOps,
        ∀ p ∈ e.2, b ≤ p.1 := by
  induction delta with
  | nil => intro st hst; exact hst
  | cons entry rest ih =>
    intro st hst
    rw [List.foldl_cons]
    refine ih (fun e he => hivs e (by simp [he])) _ ?_
    unfold processDeltaEntry
    split_ifs with hsk
    · exact hst
    · exact extentFold_lb (readFromParent cfg) entry.1 entry.2 b
        (hivs entry (by simp)) st hst

/-- Claim C3 (amended): for a SnapshotDelta whose initial key carries no
DNE extents (or with flatten off and no source parent), provided every
non-initial key passes the existence check, every planned read returns
exactly its requested interval, and every delta extent lies at or beyond
the object's image offset, the union of the image-relative byte ranges of
the WRITE ops in the WritePlan equals the union of the DATA byte ranges of
the delta. -/
theorem c3_data_preservation (cfg : Cfg) (delta : SnapshotDelta)
    (oracle : ReadOracle)
    (hdne : (∀ entry ∈ delta, entry.1 = ((0 : Nat), (0 : Nat)) →
        ∀ e ∈ entry.2, e.state ≠ ExtentState.dne) ∨
      (cfg.flatten = false ∧ cfg.srcHasParent = false))
    (hskip : ∀ entry ∈ delta, entry.1 ≠ ((0 : Nat), (0 : Nat)) →
      keySkipped cfg entry.1 = false)
    (horacle : ∀ e ∈ (computeReadOps cfg delta).readOps,
      oracle.extentMap e.1 = e.2)
    (hbase : ∀ entry ∈ delta, ∀ e ∈ entry.2, cfg.base ≤ e.off) :
    imageWriteSet cfg (planObjectCopy cfg delta oracle).writeOps =
      dataUnion delta := by
  have hdne2 : (∀ entry ∈ delta, entry.1 = ((0 : Nat), (0 : Nat)) →
      ∀ iv ∈ entry.2, iv.state ≠ ExtentState.dne) ∨
      readFromParent cfg = false := by
    rcases hdne with h | ⟨h1, h2⟩
    · exact Or.inl h
    · exact Or.inr (by simp [readFromParent, h2])
  have hskip2 : ∀ entry ∈ delta, keySkipped cfg entry.1 = false := by
    intro entry he
    by_cases h0 : entry.1 = ((0 : Nat), (0 : Nat))
    · rw [h0]
      simp [keySkipped]
    · exact hskip entry he h0
  have hdnil : (delta.foldl (processDeltaEntry cfg) ⟨[], [], true⟩).dne = [] :=
    deltaFold_dne cfg delta hdne2 ⟨[], [], true⟩
  have hro : computeReadOps cfg delta =
      delta.foldl (processDeltaEntry cfg) ⟨[], [], true⟩ := by
    simp only [computeReadOps]
    rw [if_neg]
    rintro ⟨hc, _⟩
    exact hc hdnil
  have hsorted : AlSorted keyLt (computeReadOps cfg delta).readOps := by
    rw [hro]
    exact deltaFold_sorted cfg delta ⟨[], [], true⟩ List.Pairwise.nil
  have hlb : ∀ e ∈ (computeReadOps cfg delta).readOps, ∀ p ∈ e.2,
      cfg.base ≤ p.1 := by
    rw [hro]
    refine deltaFold_lb cfg delta cfg.base hbase ⟨[], [], true⟩ ?_
    intro e he
    simp at he
  have hchar : ∀ k, toSetO (alGet k (computeReadOps cfg delta).readOps) =
      deltaDataSetAt delta k := by
    intro k
    have h := deltaFold_toSet cfg delta hskip2 ⟨[], [], true⟩ k
      List.Pairwise.nil
    simp only [alGet, toSetO, Option.getD_none, toSet_nil,
      Set.empty_union] at h
    rw [hro]
    exact h
  have hz : imageWriteSet cfg (planObjectCopy cfg delta oracle).writeOps =
      imageWriteSet cfg
        (mergeWriteOps cfg oracle
          (computeReadOps cfg delta).readOps).writeOps := by
    simp only [planObjectCopy, computeZeroOps]
    rw [zeroFold_imageWriteSet]
    rfl
  have hm : imageWriteSet cfg
      (mergeWriteOps cfg oracle (computeReadOps cfg delta).readOps).writeOps =
      readSet (computeReadOps cfg delta).readOps := by
    show imageWriteSet cfg
      (((computeReadOps cfg delta).readOps).foldl (mergeEntry cfg oracle)
        ⟨[], [], []⟩).writeOps = _
    rw [merge_imageWriteSet cfg oracle _ horacle hlb ⟨[], [], []⟩,
      show (⟨[], [], []⟩ : MergeState).writeOps =
        ([] : List (Nat × List WriteOp)) from rfl,
      imageWriteSet_nil]
    simp
  rw [hz, hm]
  ext x
  simp only [readSet, dataUnion, Set.mem_setOf_eq]
  constructor
  · rintro ⟨e, he, hx⟩
    have hget : alGet e.1 (computeReadOps cfg delta).readOps = some e.2 :=
      alGet_of_mem_sorted keyLt (fun a b h => keyLt_ne h) _ hsorted e he
    have hx2 : x ∈ toSetO (alGet e.1 (computeReadOps cfg delta).readOps) := by
      rw [hget]
      exact hx
    rw [hchar e.1] at hx2
    simp only [deltaDataSetAt, extsDataSet, Set.mem_setOf_eq] at hx2
    rcases hx2 with ⟨entry, hentry, _, iv, hiv, hst, h1, h2⟩
    exact ⟨entry, hentry, iv, hiv, hst, h1, h2⟩
  · rintro ⟨entry, hentry, iv, hiv, hst, h1, h2⟩
    have hx : x ∈ deltaDataSetAt delta entry.1 := by
      simp only [deltaDataSetAt, extsDataSet, Set.mem_setOf_eq]
      exact ⟨entry, hentry, rfl, iv, hiv, hst, h1, h2⟩
    rw [← hchar entry.1] at hx
    cases hget : alGet entry.1 (computeReadOps cfg delta).readOps with
    | none =>
      rw [hget] at hx
      simp [toSetO, toSet_nil] at hx
    | some iv2 =>
      rw [hget] at hx
      exact ⟨(entry.1, iv2), alGet_mem _ _ _ hget, hx⟩

/-- The unamended C3 fails: a DATA interval under a skipped non-initial key
is never read, so nothing is written, although the delta's DATA set is
non-empty and the initial-key/no-DNE hypothesis holds. -/
theorem c3_counterexample :
    ¬(imageWriteSet cxCfg3 (planObjectCopy cxCfg3 cxDelta3 cxOracle3).writeOps
      = dataUnion cxDelta3) := by
  intro h
  have h0 : (0 : Nat) ∈ dataUnion cxDelta3 := by
    simp only [dataUnion, Set.mem_setOf_eq]
    refine ⟨(((5 : Nat), (3 : Nat)), [⟨0, 10, .data⟩]), by simp [cxDelta3],
      ⟨0, 10, .data⟩, by simp, rfl, ?_, ?_⟩ <;> norm_num
  rw [← h] at h0
  simp only [imageWriteSet, Set.mem_setOf_eq] at h0
  rcases h0 with ⟨entry, hentry, _⟩
  have hplan : (planObjectCopy cxCfg3 cxDelta3 cxOracle3).writeOps = [] := by
    decide
  rw [hplan] at hentry
  simp at hentry

theorem c3_data_preservation_witness :
    imageWriteSet wCfg3 (planObjectCopy wCfg3 wDelta3 wOracle3).writeOps =
      dataUnion wDelta3 :=
  c3_data_preservation wCfg3 wDelta3 wOracle3 (Or.inl (by decide))
    (by decide) (by decide) (by decide)

end ObjectCopy
